import Mathlib

/-!
# grape: the cache command handlers

A shallow embedding of `cache/cache.go` and of `server/server.go` (the connection
handler, the forwarder and the start-up barrier), followed by theorems about them.

Conventions of the embedding.

* A Go `string` is a Lean `String`; Go's `len(s)` is the byte length
  `String.utf8ByteSize`.
* A Go `map[string]T` is a `GoMap T`: a key-unique association list.  The order
  of the list stands for the order in which `range` visits the map, which Go
  leaves unspecified; a statement quantified over every `GoMap` is therefore
  quantified over every visiting order.
* A handler returns `none` when the Go code panics (index out of range, integer
  division by zero) and `some (status, reply, state)` otherwise.
* Locks and log lines are not represented: the handlers are read sequentially.
* The network is an explicit `Net` value that tells which dials and writes
  succeed; the requests written during a broadcast are collected in a list.
-/

namespace Grape

/-! ## Go maps -/

/-- A Go map with string keys: an association list without repeated keys. -/
structure GoMap (β : Type) where
  entries : List (String × β)
  nodup : (entries.map Prod.fst).Nodup

/-- The list behind `m[k] = v`: overwrite the entry of `k`, or add one. -/
def setEntries {β : Type} : List (String × β) → String → β → List (String × β)
  | [], k, v => [(k, v)]
  | e :: t, k, v => if e.1 = k then (k, v) :: t else e :: setEntries t k v

/-- The list behind `delete(m, k)`. -/
def deleteEntries {β : Type} (l : List (String × β)) (k : String) : List (String × β) :=
  l.filter (fun e => decide (e.1 ≠ k))

/-- The list behind `v, ok := m[k]`. -/
def lookupEntries {β : Type} : List (String × β) → String → Option β
  | [], _ => none
  | e :: t, k => if e.1 = k then some e.2 else lookupEntries t k

theorem mem_keys_setEntries {β : Type} (l : List (String × β)) (k : String) (v : β) (x : String) :
    x ∈ (setEntries l k v).map Prod.fst ↔ x = k ∨ x ∈ l.map Prod.fst := by
  induction l with
  | nil => simp [setEntries]
  | cons e t ih =>
    unfold setEntries
    by_cases h : e.1 = k
    · simp only [h, if_true, List.map_cons, List.mem_cons]
      constructor
      · rintro (h1 | h1)
        · exact Or.inl h1
        · exact Or.inr (Or.inr h1)
      · rintro (h1 | h1 | h1)
        · exact Or.inl h1
        · exact Or.inl h1
        · exact Or.inr h1
    · simp only [h, if_false, List.map_cons, List.mem_cons, ih]
      tauto

theorem nodup_setEntries {β : Type} (l : List (String × β)) (k : String) (v : β)
    (h : (l.map Prod.fst).Nodup) : ((setEntries l k v).map Prod.fst).Nodup := by
  induction l with
  | nil => simp [setEntries]
  | cons e t ih =>
    rw [List.map_cons, List.nodup_cons] at h
    unfold setEntries
    by_cases hk : e.1 = k
    · simp only [hk, if_true, List.map_cons, List.nodup_cons]
      exact ⟨hk ▸ h.1, h.2⟩
    · simp only [hk, if_false, List.map_cons, List.nodup_cons]
      refine ⟨?_, ih h.2⟩
      rw [mem_keys_setEntries]
      rintro (h1 | h1)
      · exact hk h1
      · exact h.1 h1

theorem nodup_deleteEntries {β : Type} (l : List (String × β)) (k : String)
    (h : (l.map Prod.fst).Nodup) : ((deleteEntries l k).map Prod.fst).Nodup := by
  unfold deleteEntries
  exact (List.filter_sublist l).map Prod.fst |>.nodup h

namespace GoMap

/-- The result of `make(map[string]T)`. -/
def empty {β : Type} : GoMap β := ⟨[], List.nodup_nil⟩

/-- The two-valued read `v, ok := m[k]`: `none` stands for `ok == false`. -/
def get? {β : Type} (m : GoMap β) (k : String) : Option β := lookupEntries m.entries k

/-- The assignment `m[k] = v`. -/
def set {β : Type} (m : GoMap β) (k : String) (v : β) : GoMap β :=
  ⟨setEntries m.entries k v, nodup_setEntries m.entries k v m.nodup⟩

/-- The statement `delete(m, k)`. -/
def delete {β : Type} (m : GoMap β) (k : String) : GoMap β :=
  ⟨deleteEntries m.entries k, nodup_deleteEntries m.entries k m.nodup⟩

/-- The value of `len(m)`. -/
def len {β : Type} (m : GoMap β) : Nat := m.entries.length

/-- The keys of the map, in the order `range` visits them. -/
def keys {β : Type} (m : GoMap β) : List String := m.entries.map Prod.fst

end GoMap

/-! ## Collaborators of the cache -/

/-- The statuses of package `protocol` that the cache and the server use. -/
inductive Status where
  | RequestFinish
  | RequestNotFound
  | ProtocolNotSupport
  | ProtocolOtherNode
  deriving DecidableEq, Repr

/-- The parsed command handed to `HandleCommand`: the argument strings, verb first. -/
structure CommandData where
  Args : List String

/-- The fields of `config.Config` that the cache reads. `Shards` is a Go `int`. -/
structure Config where
  Address : String
  RemotePeers : List String
  Shards : Int

/-- Modelled from the spec: the consistent-hash ring of package `consistent`, whose
source is not part of the files at hand. It is a sequence of (hash, node identity)
tokens kept sorted by hash, together with the stable hash function that produced
them. -/
structure Consistent where
  hash : String → Nat
  circle : List (Nat × String)

namespace Consistent

/-- Modelled from the spec: the stable hash of a key, an unsigned 32-bit number
(`HashKey` of package `consistent`). -/
def HashKey (ring : Consistent) (key : String) : Nat := ring.hash key % 2 ^ 32

/-- Modelled from the spec: the owner lookup `SetKey` of package `consistent`: hash
the key and take the first token whose hash is at least the hash of the key,
wrapping around to the first token. An empty ring has no owner and yields the empty
string (the error returned next to it is dropped by the caller). -/
def SetKey (ring : Consistent) (key : String) : String :=
  match ring.circle.find? (fun t => decide (ring.HashKey key ≤ t.1)) with
  | some t => t.2
  | none =>
    match ring.circle.head? with
    | some t => t.2
    | none => ""

/-- The node identities that have a token on the ring. -/
def nodes (ring : Consistent) : List String := ring.circle.map Prod.snd

end Consistent

/-- The outcome of the network operations of one handler call: whether dialling a
node succeeds (address resolution included) and whether writing a request on the
dialled connection succeeds. -/
structure Net where
  dial : String → Bool
  write : String → String → Bool

/-! ## Text helpers -/

/-- The upper-case form of one rune, as far as it can be an ASCII capital: the
letters `a`..`z`, and the two non-ASCII runes whose upper case is an ASCII capital
(dotless i, U+0131, and long s, U+017F). Every other rune of Go's `unicode.ToUpper`
has an upper case outside `A`..`Z`, so it is left in place here; the comparison with
the ASCII verbs of `HandleCommand` is the same. -/
def upperRune (c : Char) : Char :=
  if 97 ≤ c.toNat ∧ c.toNat ≤ 122 then Char.ofNat (c.toNat - 32)
  else if c.toNat = 0x131 then 'I'
  else if c.toNat = 0x17F then 'S'
  else c

/-- Go's `strings.ToUpper`, rune by rune. -/
def ToUpper (s : String) : String := String.mk (s.data.map upperRune)

/-- The text `fmt.Sprintf("$%d\r\n%s\r\n", len(s), s)`: a bulk string. -/
def bulk (s : String) : String := "$" ++ toString s.utf8ByteSize ++ "\r\n" ++ s ++ "\r\n"

/-- The text `fmt.Sprintf("*%d\r\n", n)`: the head of an array of `n` elements. -/
def arrayHead (n : Nat) : String := "*" ++ toString n ++ "\r\n"

/-- Go's conversion `int(x)` of an unsigned number on a platform whose `int` has
`intSize` bits: the value is wrapped into the signed range. -/
def toInt (intSize : Nat) (x : Nat) : Int :=
  if x % 2 ^ intSize < 2 ^ (intSize - 1) then ((x % 2 ^ intSize : Nat) : Int)
  else ((x % 2 ^ intSize : Nat) : Int) - ((2 ^ intSize : Nat) : Int)

/-! ## The cache -/

/-- The struct `Cache`: each shard is the `dataMap` of a `cacheShard`, `RouteTable`
is the membership table. The two mutexes are not represented. -/
structure Cache where
  shards : List (GoMap String)
  Config : Config
  consistency : Consistent
  RouteTable : GoMap Bool

/-- The result of a handler: status, reply text and the state it leaves. -/
abbrev Outcome := Option (Status × String × Cache)

/-- The function `NewCache`: every remote peer starts Down, every shard starts empty.
`make` panics on a negative length. -/
def NewCache (config : Config) (consistency : Consistent) : Option Cache :=
  let route := config.RemotePeers.foldl (fun (r : GoMap Bool) node => r.set node false) GoMap.empty
  if config.Shards < 0 then none
  else some
    { shards := List.replicate config.Shards.toNat GoMap.empty
      Config := config
      consistency := consistency
      RouteTable := route }

namespace Cache

/-- The method `CheckKey`: whether the key is stored on this node, and its owner
when it is not. -/
def CheckKey (cache : Cache) (key : String) : Bool × String :=
  let server := cache.consistency.SetKey key
  if server ≠ cache.Config.Address then (false, server) else (true, "")

/-- The method `hashShard`: `int(HashKey(key)) % len(shards)`, with Go's truncated
remainder; `none` is the division by zero of an empty shard array. -/
def hashShard (intSize : Nat) (cache : Cache) (key : String) : Option Int :=
  if cache.shards.length = 0 then none
  else some (Int.tmod (toInt intSize (cache.consistency.HashKey key)) (cache.shards.length : Int))

/-- The indexing `cache.shards[i]`: `none` is the index-out-of-range panic. -/
def shardAt (cache : Cache) (i : Int) : Option (GoMap String) :=
  if 0 ≤ i then cache.shards[i.toNat]? else none

/-- The method `HandleSet`. -/
def HandleSet (intSize : Nat) (cache : Cache) (args : List String) : Outcome :=
  match args[1]? with
  | none => none
  | some key =>
    match cache.CheckKey key with
    | (false, server) => some (Status.ProtocolOtherNode, server, cache)
    | (true, _) =>
      match args[2]? with
      | none => none
      | some value =>
        match cache.hashShard intSize key with
        | none => none
        | some i =>
          match cache.shardAt i with
          | none => none
          | some shard =>
            some (Status.RequestFinish, "+OK\r\n",
              { cache with shards := cache.shards.set i.toNat (shard.set key value) })

/-- The method `HandleGet`. -/
def HandleGet (intSize : Nat) (cache : Cache) (args : List String) : Outcome :=
  match args[1]? with
  | none => none
  | some key =>
    match cache.CheckKey key with
    | (false, server) => some (Status.ProtocolOtherNode, server, cache)
    | (true, _) =>
      match cache.hashShard intSize key with
      | none => none
      | some i =>
        match cache.shardAt i with
        | none => none
        | some shard =>
          match shard.get? key with
          | some value => some (Status.RequestFinish, bulk value, cache)
          | none => some (Status.RequestNotFound, "", cache)

/-- The method `HandlePing`. -/
def HandlePing (cache : Cache) (_args : List String) : Outcome :=
  some (Status.RequestFinish, "+PONG\r\n", cache)

/-- The text one peer adds to the `INFO` reply: the bulk string of
`peer+": "+str_status`. -/
def infoLine (e : String × Bool) : String :=
  bulk (e.1 ++ ": " ++ (if e.2 then "Up" else "Down"))

/-- The method `HandleInfo`: the array head, the title, then one line per entry of
the membership table in the order `range` visits them. -/
def HandleInfo (cache : Cache) (_args : List String) : Outcome :=
  let num := arrayHead (cache.RouteTable.len + 1)
  let title := bulk "Connect status:"
  let resp := cache.RouteTable.entries.foldl (fun (resp : String) e => resp ++ infoLine e) (num ++ title)
  some (Status.RequestFinish, resp, cache)

/-- The request that `HandleJoin` writes to every peer. -/
def joinRequest (joinAddr : String) : String :=
  "*2\r\n$4\r\nJOIN\r\n$" ++ toString joinAddr.utf8ByteSize ++ "\r\n" ++ joinAddr ++ "\r\n"

/-- The request that `HandleRemove` writes to every peer. -/
def removeRequest (removeAddr : String) : String :=
  "*2\r\n$4\r\nREMOVE\r\n$" ++ toString removeAddr.utf8ByteSize ++ "\r\n" ++ removeAddr ++ "\r\n"

/-- One turn of the broadcast loop of `HandleJoin`. The state is the reply built so
far and the list of (node, request) pairs written so far. The node is appended to
the reply first; a failed dial or a failed write goes on to the next node. -/
def joinStep (net : Net) (joinAddr : String) (acc : String × List (String × String))
    (node : String) : String × List (String × String) :=
  let routeResp := acc.1 ++ bulk node
  if net.dial node = false then (routeResp, acc.2)
  else if net.write node (joinRequest joinAddr) = false then (routeResp, acc.2)
  else (routeResp, acc.2 ++ [(node, joinRequest joinAddr)])

/-- The broadcast loop of `HandleJoin` over the snapshot of the peers. -/
def joinBroadcast (net : Net) (joinAddr : String) (routeTable : List String)
    (routeResp : String) : String × List (String × String) :=
  routeTable.foldl (joinStep net joinAddr) (routeResp, [])

/-- The method `HandleJoin`. -/
def HandleJoin (net : Net) (cache : Cache) (args : List String) : Outcome :=
  match args[1]? with
  | none => none
  | some joinAddr =>
    let routeResp := arrayHead (cache.RouteTable.len + 1) ++ "$2\r\nOK\r\n"
    let routeTable := cache.RouteTable.keys
    let routeResp := (joinBroadcast net joinAddr routeTable routeResp).1
    if joinAddr ≠ cache.Config.Address then
      match cache.RouteTable.get? joinAddr with
      | none =>
        some (Status.RequestFinish, routeResp,
          { cache with RouteTable := cache.RouteTable.set joinAddr false })
      | some _ => some (Status.RequestFinish, routeResp, cache)
    else some (Status.RequestFinish, routeResp, cache)

/-- One turn of the broadcast loop of `HandleRemove`: the (node, request) pairs
written so far. -/
def removeStep (net : Net) (removeAddr : String) (acc : List (String × String))
    (node : String) : List (String × String) :=
  if net.dial node = false then acc
  else if net.write node (removeRequest removeAddr) = false then acc
  else acc ++ [(node, removeRequest removeAddr)]

/-- The broadcast loop of `HandleRemove` over the snapshot of the peers. -/
def removeBroadcast (net : Net) (removeAddr : String) (routeTable : List String) :
    List (String × String) :=
  routeTable.foldl (removeStep net removeAddr) []

/-- The method `HandleRemove`: removing the local address deletes every entry that
`range` visits, removing another address deletes that entry when it is there. -/
def HandleRemove (_net : Net) (cache : Cache) (args : List String) : Outcome :=
  match args[1]? with
  | none => none
  | some removeAddr =>
    if removeAddr = cache.Config.Address then
      some (Status.RequestFinish, "+OK\r\n",
        { cache with
          RouteTable := cache.RouteTable.keys.foldl (fun (r : GoMap Bool) node => r.delete node)
            cache.RouteTable })
    else
      match cache.RouteTable.get? removeAddr with
      | some _ =>
        some (Status.RequestFinish, "+OK\r\n",
          { cache with RouteTable := cache.RouteTable.delete removeAddr })
      | none => some (Status.RequestFinish, "+OK\r\n", cache)

/-- The method `HandleCommand`: the switch on the upper-cased verb. Reading
`data.Args[0]` of an empty argument list panics. -/
def HandleCommand (intSize : Nat) (net : Net) (cache : Cache) (data : CommandData) : Outcome :=
  match data.Args[0]? with
  | none => none
  | some verb =>
    let v := ToUpper verb
    if v = "COMMAND" then some (Status.ProtocolNotSupport, "", cache)
    else if v = "SET" then cache.HandleSet intSize data.Args
    else if v = "GET" then cache.HandleGet intSize data.Args
    else if v = "PING" then cache.HandlePing data.Args
    else if v = "INFO" then cache.HandleInfo data.Args
    else if v = "JOIN" then cache.HandleJoin net data.Args
    else if v = "REMOVE" then cache.HandleRemove net data.Args
    else some (Status.ProtocolNotSupport, "", cache)

end Cache

/-! ## The connection handler -/

/-- The switch of `handleConnection` on the status returned by `HandleCommand`: the
bytes written to the client. `forward` stands for `resendRequest`, called with the
request text and the owner carried by the status. -/
def connectionReply (forward : String → String → String) (request : String)
    (status : Status) (resp : String) : String :=
  match status with
  | Status.RequestFinish => resp
  | Status.RequestNotFound => "-Not found\r\n"
  | Status.ProtocolNotSupport => "-Protocol not support\r\n"
  | Status.ProtocolOtherNode => forward request resp

/-! ## Sample states -/

/-- A hash used in the examples: the byte length of the key. -/
def sampleHash (s : String) : Nat := s.utf8ByteSize

/-- A single-node cluster at `127.0.0.1:6000` with four empty shards. -/
def sampleSingle : Cache :=
  { shards := List.replicate 4 GoMap.empty
    Config := { Address := "127.0.0.1:6000", RemotePeers := [], Shards := 4 }
    consistency := { hash := sampleHash, circle := [(14, "127.0.0.1:6000")] }
    RouteTable := GoMap.empty }

/-- A network on which every dial fails. -/
def netDown : Net := { dial := fun _ => false, write := fun _ _ => false }

/-- A network on which every dial and every write succeeds. -/
def netUp : Net := { dial := fun _ => true, write := fun _ _ => true }

/-- A two-node cluster seen from `127.0.0.1:6000`: the peer `127.0.0.1:6001` is Up,
keys of at most three bytes belong to the local node, keys of four to ten bytes to
the peer. -/
def sampleTwo : Cache :=
  { shards := List.replicate 4 GoMap.empty
    Config := { Address := "127.0.0.1:6000", RemotePeers := ["127.0.0.1:6001"], Shards := 4 }
    consistency :=
      { hash := sampleHash, circle := [(3, "127.0.0.1:6000"), (10, "127.0.0.1:6001")] }
    RouteTable := GoMap.empty.set "127.0.0.1:6001" true }

/-- The arity table of the dispatcher as the spec gives it: the number of arguments,
verb included, of each recognised verb (0 for any other text). -/
def verbArity (v : String) : Nat :=
  if v = "PING" then 1
  else if v = "SET" then 3
  else if v = "GET" then 2
  else if v = "INFO" then 1
  else if v = "JOIN" then 2
  else if v = "REMOVE" then 2
  else 0

/-- The verbs that the dispatcher recognises. -/
def verbs : List String := ["PING", "SET", "GET", "INFO", "JOIN", "REMOVE"]

/-! ## The server -/

/-- The constant `receiveBufferSize`. -/
def receiveBufferSize : Nat := 1024 * 4

/-- The constant `sendBufferSize`. -/
def sendBufferSize : Nat := 1024 * 4

/-- The steps of `resendRequest` that touch the network. -/
inductive ForwardStep where
  | resolve
  | dial
  | write
  | read
  deriving DecidableEq, Repr

/-- The outcome of the network operations of one call of `resendRequest`: whether the
owner's address resolves, whether the dial succeeds, whether the write of the request
succeeds, and what the single `Read` of the reply delivers (`none` when it fails). -/
structure ForwardNet where
  resolve : String → Bool
  dial : String → Bool
  write : String → String → Bool
  read : String → Option String

/-- The reply that `resendRequest` makes up when a step fails. -/
def forwardFailure : String := "-Can not connect to destination Node\r\n"

/-- The function `resendRequest`, together with the network steps it performed, in
order. -/
def resendRequestRun (fnet : ForwardNet) (request addr : String) :
    String × List ForwardStep :=
  if fnet.resolve addr = false then (forwardFailure, [ForwardStep.resolve])
  else if fnet.dial addr = false then (forwardFailure, [ForwardStep.resolve, ForwardStep.dial])
  else if fnet.write addr request = false then
    (forwardFailure, [ForwardStep.resolve, ForwardStep.dial, ForwardStep.write])
  else
    match fnet.read addr with
    | none =>
      (forwardFailure,
        [ForwardStep.resolve, ForwardStep.dial, ForwardStep.write, ForwardStep.read])
    | some reply =>
      (reply, [ForwardStep.resolve, ForwardStep.dial, ForwardStep.write, ForwardStep.read])

/-- The function `resendRequest`: the text it returns. -/
def resendRequest (fnet : ForwardNet) (request addr : String) : String :=
  (resendRequestRun fnet request addr).1

/-- The loop of `ClusterConnected` over the entries of the membership table. -/
def clusterLoop : List (String × Bool) → Bool
  | [] => true
  | e :: t => if e.2 = false then e.2 else clusterLoop t

/-- The function `ClusterConnected`. -/
def ClusterConnected (cache : Cache) : Bool := clusterLoop cache.RouteTable.entries

/-- The loop `for !ClusterConnected(cache) { sendHeartbeat(cache) }` of `StartServer`,
run for at most `fuel + 1` tests of the condition. `sendHeartbeat` is not among the
sources at hand and is a parameter: whatever one call (and the heartbeat monitor in
the meantime) does to the state. `none` means the loop is still running. -/
def waitForCluster (sendHeartbeat : Cache → Cache) : Nat → Cache → Option Cache
  | 0, cache => if ClusterConnected cache = true then some cache else none
  | fuel + 1, cache =>
    if ClusterConnected cache = true then some cache
    else waitForCluster sendHeartbeat fuel (sendHeartbeat cache)

/-- What one `reader.Read(request)` of `handleConnection` returns: some bytes and no
error, the error `io.EOF`, or another error. -/
inductive ReadResult where
  | data (bytes : String)
  | eof
  | failure

/-- The state of one run of `handleConnection`: the receive buffer `request`, the
cache, the texts written to the client and the (request, owner) pairs handed to
`resendRequest`, oldest first. A byte of the buffer is written as one character. -/
structure Session where
  request : String
  cache : Cache
  written : List String
  forwarded : List (String × String)

/-- The buffer made by `make([]byte, receiveBufferSize)`: all zero bytes. -/
def newBuffer : String := String.mk (List.replicate receiveBufferSize (Char.ofNat 0))

/-- The effect of `reader.Read(request)` on the buffer when it delivers `bytes`: they
replace the front of the buffer and the rest of the buffer stays. -/
def readInto (request bytes : String) : String :=
  String.mk (bytes.data.take request.data.length
    ++ request.data.drop (bytes.data.take request.data.length).length)

/-- How one turn of the loop of `handleConnection` ends: the handler returned, the
loop goes on, or the process panicked. -/
inductive StepOutcome where
  | closed (s : Session)
  | next (s : Session)
  | crash

/-- The second half of a turn of `handleConnection`: parse `string(request)`, call
`HandleCommand`, write the reply chosen by the switch on the status. The parser of
package `protocol` is a parameter. -/
def dispatchRequest (intSize : Nat) (Parser : String → CommandData) (net : Net)
    (fnet : ForwardNet) (s : Session) : StepOutcome :=
  match Cache.HandleCommand intSize net s.cache (Parser s.request) with
  | none => StepOutcome.crash
  | some (status, resp, cache) =>
    StepOutcome.next
      { request := s.request
        cache := cache
        written := s.written ++ [connectionReply (resendRequest fnet) s.request status resp]
        forwarded :=
          if status = Status.ProtocolOtherNode then s.forwarded ++ [(s.request, resp)]
          else s.forwarded }

/-- One turn of the loop of `handleConnection`. Only `io.EOF` returns; after any
other error the turn goes on with the buffer as it is. -/
def handleConnectionStep (intSize : Nat) (Parser : String → CommandData) (net : Net)
    (fnet : ForwardNet) (s : Session) (r : ReadResult) : StepOutcome :=
  match r with
  | ReadResult.eof => StepOutcome.closed s
  | ReadResult.failure => dispatchRequest intSize Parser net fnet s
  | ReadResult.data bytes =>
    dispatchRequest intSize Parser net fnet { s with request := readInto s.request bytes }

/-- A run of commands through `HandleCommand`, each with its own network outcome:
the state after the last one, or `none` when one of them panics. -/
def runCommands (intSize : Nat) : Cache → List (Net × CommandData) → Option Cache
  | cache, [] => some cache
  | cache, (net, data) :: rest =>
    match Cache.HandleCommand intSize net cache data with
    | none => none
    | some (_, _, cache') => runCommands intSize cache' rest

/-! ## Letter case -/

/-- The upper-case form of an ASCII letter; any other character is left alone. -/
def asciiUpper (c : Char) : Char :=
  if 97 ≤ c.toNat ∧ c.toNat ≤ 122 then Char.ofNat (c.toNat - 32) else c

/-- Two texts are letter-case variants of each other: they differ at most in the
case of the letters `a`..`z`. -/
def caseVariant (a b : String) : Prop := a.data.map asciiUpper = b.data.map asciiUpper

instance (a b : String) : Decidable (caseVariant a b) :=
  inferInstanceAs (Decidable (a.data.map asciiUpper = b.data.map asciiUpper))

/-! ## A sample parser -/

/-- The lines of a text, cut at every `\r\n`; `acc` holds the current line, last
character first. -/
def splitCRLF : List Char → List Char → List (List Char)
  | [], acc => [acc.reverse]
  | c :: rest, acc =>
    if c = '\n' ∧ acc.head? = some '\r' then (acc.drop 1).reverse :: splitCRLF rest []
    else splitCRLF rest (c :: acc)

/-- The number written by a list of decimal digits. -/
def digitsValue (l : List Char) : Nat := l.foldl (fun n c => 10 * n + (c.toNat - 48)) 0

/-- A parser used in the examples, after the request framing of the spec: the head
`*N` and then `N` bulk strings `$len` / bytes; whatever follows is ignored. -/
def sampleParser (s : String) : CommandData :=
  let lines := splitCRLF s.data []
  match lines with
  | [] => { Args := [] }
  | head :: body =>
    { Args := (List.range (digitsValue (head.drop 1))).filterMap
        (fun i => (body[2 * i + 1]?).map String.mk) }

/-- A configuration that lists the local address among the remote peers. -/
def sampleConfigSelf : Config :=
  { Address := "127.0.0.1:6000"
    RemotePeers := ["127.0.0.1:6000", "127.0.0.1:6001"]
    Shards := 4 }

/-- The ring of the two-node cluster. -/
def sampleRing : Consistent :=
  { hash := sampleHash, circle := [(3, "127.0.0.1:6000"), (10, "127.0.0.1:6001")] }

/-- A ring that holds the local address only and whose hash gives the key `foo` the
value `0x8C736521` (its CRC-32), a value of the upper half of the 32-bit range. -/
def sampleRingHigh : Consistent :=
  { hash := fun s => if s = "foo" then 2356372769 else s.utf8ByteSize
    circle := [(14, "127.0.0.1:6000")] }

/-- A forwarding network on which every step succeeds and the owner answers `+OK`. -/
def forwardUp : ForwardNet :=
  { resolve := fun _ => true
    dial := fun _ => true
    write := fun _ _ => true
    read := fun _ => some "+OK\r\n" }

/-- The request `GET quux` in the array framing of the protocol. -/
def sampleGetRequest : String := "*2\r\n$3\r\nGET\r\n$4\r\nquux\r\n"

/-- A session on the two-node cache right after accepting the connection. -/
def sessionStart : Session :=
  { request := newBuffer, cache := sampleTwo, written := [], forwarded := [] }

/-- The session on the two-node cache after `GET quux` was read, redirected to the
peer and answered. -/
def sessionAfterGet : Session :=
  { request := readInto newBuffer sampleGetRequest
    cache := sampleTwo
    written := ["+OK\r\n"]
    forwarded := [(readInto newBuffer sampleGetRequest, "127.0.0.1:6001")] }

/-! ## Lemmas on maps and on the shard index -/

theorem lookupEntries_setEntries {β : Type} (l : List (String × β)) (k : String) (v : β)
    (x : String) :
    lookupEntries (setEntries l k v) x = if x = k then some v else lookupEntries l x := by
  induction l with
  | nil =>
    by_cases hx : x = k
    · simp [setEntries, lookupEntries, hx]
    · simp [setEntries, lookupEntries, hx, Ne.symm hx]
  | cons e t ih =>
    unfold setEntries
    by_cases h : e.1 = k
    · by_cases hx : x = k
      · simp [lookupEntries, hx, h]
      · simp [lookupEntries, hx, h, Ne.symm hx]
    · rw [if_neg h]
      unfold lookupEntries
      rw [ih]
      by_cases hx : x = k
      · subst hx
        simp [h]
      · simp [hx]

theorem GoMap.get?_set {β : Type} (m : GoMap β) (k : String) (v : β) (x : String) :
    (m.set k v).get? x = if x = k then some v else m.get? x :=
  lookupEntries_setEntries m.entries k v x

theorem toInt_of_lt (intSize x : Nat) (hi : 32 < intSize) (hx : x < 2 ^ 32) :
    toInt intSize x = (x : Int) := by
  have h1 : (2 : Nat) ^ 32 ≤ 2 ^ (intSize - 1) :=
    Nat.pow_le_pow_right (by decide) (by omega)
  have h2 : (2 : Nat) ^ (intSize - 1) ≤ 2 ^ intSize :=
    Nat.pow_le_pow_right (by decide) (by omega)
  have h3 : x % 2 ^ intSize = x := Nat.mod_eq_of_lt (by omega)
  unfold toInt
  rw [h3, if_pos (by omega)]

theorem HashKey_lt (ring : Consistent) (key : String) : ring.HashKey key < 2 ^ 32 :=
  Nat.mod_lt _ (by decide)

theorem Cache.hashShard_eq (intSize : Nat) (c : Cache) (key : String)
    (hs : 0 < c.shards.length) (hi : 32 < intSize) :
    c.hashShard intSize key
      = some ((c.consistency.HashKey key % c.shards.length : Nat) : Int) := by
  unfold Cache.hashShard
  rw [if_neg (by omega), toInt_of_lt intSize _ hi (HashKey_lt _ _), ← Int.ofNat_tmod]

theorem Cache.shardAt_natCast (c : Cache) (n : Nat) : c.shardAt (n : Int) = c.shards[n]? := by
  unfold Cache.shardAt
  simp

theorem Cache.CheckKey_local (c : Cache) (key : String)
    (h : c.consistency.SetKey key = c.Config.Address) : c.CheckKey key = (true, "") := by
  simp [Cache.CheckKey, h]

theorem Cache.CheckKey_remote (c : Cache) (key : String)
    (h : c.consistency.SetKey key ≠ c.Config.Address) :
    c.CheckKey key = (false, c.consistency.SetKey key) := by
  simp [Cache.CheckKey, h]

/-- What `HandleSet` does with a key of this node. -/
theorem Cache.HandleSet_local (intSize : Nat) (c : Cache) (args : List String) (K V : String)
    (h1 : args[1]? = some K) (h2 : args[2]? = some V)
    (hown : c.consistency.SetKey K = c.Config.Address)
    (hs : 0 < c.shards.length) (hi : 32 < intSize) :
    ∃ shard, c.shards[c.consistency.HashKey K % c.shards.length]? = some shard ∧
      c.HandleSet intSize args = some (Status.RequestFinish, "+OK\r\n",
        { c with shards := c.shards.set (c.consistency.HashKey K % c.shards.length)
                   (shard.set K V) }) := by
  have hlt : c.consistency.HashKey K % c.shards.length < c.shards.length := Nat.mod_lt _ hs
  refine ⟨c.shards[c.consistency.HashKey K % c.shards.length], List.getElem?_eq_getElem hlt, ?_⟩
  simp only [Cache.HandleSet, h1, h2, Cache.CheckKey_local c K hown,
    Cache.hashShard_eq intSize c K hs hi, Cache.shardAt_natCast, List.getElem?_eq_getElem hlt,
    Int.toNat_ofNat]

/-- What `HandleGet` does with a key of this node. -/
theorem Cache.HandleGet_local (intSize : Nat) (c : Cache) (args : List String) (K : String)
    (h1 : args[1]? = some K)
    (hown : c.consistency.SetKey K = c.Config.Address)
    (hs : 0 < c.shards.length) (hi : 32 < intSize) :
    ∃ shard, c.shards[c.consistency.HashKey K % c.shards.length]? = some shard ∧
      c.HandleGet intSize args =
        match shard.get? K with
        | some value => some (Status.RequestFinish, bulk value, c)
        | none => some (Status.RequestNotFound, "", c) := by
  have hlt : c.consistency.HashKey K % c.shards.length < c.shards.length := Nat.mod_lt _ hs
  refine ⟨c.shards[c.consistency.HashKey K % c.shards.length], List.getElem?_eq_getElem hlt, ?_⟩
  simp only [Cache.HandleGet, h1, Cache.CheckKey_local c K hown,
    Cache.hashShard_eq intSize c K hs hi, Cache.shardAt_natCast, List.getElem?_eq_getElem hlt]

/-! ## SET and GET -/

/-- C1. Local SET/GET round trip: on a cache with at least one shard, on a platform
whose `int` is wider than 32 bits, for a key whose ring owner is the local address,
`HandleSet(["SET", K, V])` returns `(RequestFinish, "+OK\r\n")` and `HandleGet(["GET", K])`
on the state it leaves returns `(RequestFinish, "$<n>\r\n<V>\r\n")` with `n` the byte
length of `V`, whatever `K` held before. -/
theorem C1_set_get_round_trip (intSize : Nat) (c : Cache) (K V : String)
    (hown : c.consistency.SetKey K = c.Config.Address)
    (hs : 0 < c.shards.length) (hi : 32 < intSize) :
    ∃ c', c.HandleSet intSize ["SET", K, V] = some (Status.RequestFinish, "+OK\r\n", c') ∧
      c'.HandleGet intSize ["GET", K]
        = some (Status.RequestFinish,
            "$" ++ toString V.utf8ByteSize ++ "\r\n" ++ V ++ "\r\n", c') := by
  obtain ⟨shard, hshard, hset⟩ :=
    Cache.HandleSet_local intSize c ["SET", K, V] K V rfl rfl hown hs hi
  have hlt : c.consistency.HashKey K % c.shards.length < c.shards.length := Nat.mod_lt _ hs
  refine ⟨_, hset, ?_⟩
  obtain ⟨shard', hshard', hget⟩ :=
    Cache.HandleGet_local intSize
      { c with shards := c.shards.set (c.consistency.HashKey K % c.shards.length)
                 (shard.set K V) } ["GET", K] K rfl hown (by simpa using hs) hi
  rw [hget]
  simp only [List.length_set] at hshard'
  rw [List.getElem?_set_self hlt] at hshard'
  cases hshard'
  rw [GoMap.get?_set, if_pos rfl]
  rfl

/-- Witness of C1: `SET foo bar` then `GET foo` on the single-node cache gives `$3\r\nbar\r\n`. -/
theorem C1_witness :
    ∃ c', sampleSingle.HandleSet 64 ["SET", "foo", "bar"]
        = some (Status.RequestFinish, "+OK\r\n", c') ∧
      c'.HandleGet 64 ["GET", "foo"] = some (Status.RequestFinish, "$3\r\nbar\r\n", c') :=
  C1_set_get_round_trip 64 sampleSingle "foo" "bar" (by decide) (by decide) (by decide)

/-- C2. Ownership check before any local read or write. For a key `K` read at index 1
of the arguments: when the ring owner of `K` is not the local address, `HandleSet` and
`HandleGet` both return `(ProtocolOtherNode, owner)` and leave the whole state, hence
every shard, as it was; when the owner is the local address neither of them returns
`ProtocolOtherNode`, and (with at least one shard and an `int` wider than 32 bits) SET
writes `V` under `K` into the shard of `K` of the local store and GET answers from
that shard. -/
theorem C2_ownership_check (intSize : Nat) (c : Cache) (K : String) :
    (c.consistency.SetKey K ≠ c.Config.Address →
      ∀ args : List String, args[1]? = some K →
        c.HandleSet intSize args
          = some (Status.ProtocolOtherNode, c.consistency.SetKey K, c) ∧
        c.HandleGet intSize args
          = some (Status.ProtocolOtherNode, c.consistency.SetKey K, c)) ∧
    (c.consistency.SetKey K = c.Config.Address →
      (∀ (args : List String) (st : Status) (r : String) (c' : Cache),
        args[1]? = some K →
        (c.HandleSet intSize args = some (st, r, c') ∨
          c.HandleGet intSize args = some (st, r, c')) →
        st ≠ Status.ProtocolOtherNode) ∧
      (0 < c.shards.length → 32 < intSize →
        ∃ shard, c.shards[c.consistency.HashKey K % c.shards.length]? = some shard ∧
          (∀ V : String, c.HandleSet intSize ["SET", K, V]
            = some (Status.RequestFinish, "+OK\r\n",
                { c with shards := c.shards.set (c.consistency.HashKey K % c.shards.length)
                           (shard.set K V) })) ∧
          c.HandleGet intSize ["GET", K]
            = (match shard.get? K with
               | some value => some (Status.RequestFinish, bulk value, c)
               | none => some (Status.RequestNotFound, "", c)))) := by
  refine ⟨?_, ?_⟩
  · intro hne args h1
    constructor
    · simp only [Cache.HandleSet, h1, Cache.CheckKey_remote c K hne]
    · simp only [Cache.HandleGet, h1, Cache.CheckKey_remote c K hne]
  · intro hown
    refine ⟨?_, ?_⟩
    · intro args st r c' h1 h
      rcases h with h | h
      · simp only [Cache.HandleSet, h1, Cache.CheckKey_local c K hown] at h
        intro hst
        subst hst
        split at h
        · exact Option.noConfusion h
        · split at h
          · exact Option.noConfusion h
          · split at h
            · exact Option.noConfusion h
            · simp at h
      · simp only [Cache.HandleGet, h1, Cache.CheckKey_local c K hown] at h
        intro hst
        subst hst
        split at h
        · exact Option.noConfusion h
        · split at h
          · exact Option.noConfusion h
          · split at h
            · simp at h
            · simp at h
    · intro hs hi
      obtain ⟨shard, hshard, hget⟩ := Cache.HandleGet_local intSize c ["GET", K] K rfl hown hs hi
      refine ⟨shard, hshard, ?_, hget⟩
      intro V
      obtain ⟨shard', hshard', hset⟩ :=
        Cache.HandleSet_local intSize c ["SET", K, V] K V rfl rfl hown hs hi
      rw [hshard] at hshard'
      cases hshard'
      exact hset

/-- Witness of C2 on the two-node cache: `quux` belongs to the peer and is redirected, `foo` is local and is served from shard 3. -/
theorem C2_witness :
    (sampleTwo.HandleSet 64 ["SET", "quux", "v"]
        = some (Status.ProtocolOtherNode, "127.0.0.1:6001", sampleTwo) ∧
      sampleTwo.HandleGet 64 ["GET", "quux"]
        = some (Status.ProtocolOtherNode, "127.0.0.1:6001", sampleTwo)) ∧
    (∃ shard, sampleTwo.shards[3]? = some shard ∧
      (∀ V : String, sampleTwo.HandleSet 64 ["SET", "foo", V]
        = some (Status.RequestFinish, "+OK\r\n",
            { sampleTwo with shards := sampleTwo.shards.set 3 (shard.set "foo" V) })) ∧
      sampleTwo.HandleGet 64 ["GET", "foo"]
        = (match shard.get? "foo" with
           | some value => some (Status.RequestFinish, bulk value, sampleTwo)
           | none => some (Status.RequestNotFound, "", sampleTwo))) :=
  ⟨⟨((C2_ownership_check 64 sampleTwo "quux").1 (by decide) ["SET", "quux", "v"] rfl).1,
    ((C2_ownership_check 64 sampleTwo "quux").1 (by decide) ["GET", "quux"] rfl).2⟩,
   ((C2_ownership_check 64 sampleTwo "foo").2 (by decide)).2 (by decide) (by decide)⟩

/-- C3. GET miss: on a cache with at least one shard (and an `int` wider than 32
bits), for a key `K` owned by the local address, `HandleGet(["GET", K])` returns
`(RequestNotFound, "")` when `K` is absent from its shard, it returns the status
`RequestNotFound` only when `K` is absent from its shard, and the connection handler
turns the status `RequestNotFound` into exactly the reply `"-Not found\r\n"`. -/
theorem C3_get_miss (intSize : Nat) (c : Cache) (K : String)
    (hown : c.consistency.SetKey K = c.Config.Address)
    (hs : 0 < c.shards.length) (hi : 32 < intSize) :
    ∃ shard, c.shards[c.consistency.HashKey K % c.shards.length]? = some shard ∧
      (c.HandleGet intSize ["GET", K] = some (Status.RequestNotFound, "", c)
        ↔ shard.get? K = none) ∧
      (∀ (r : String) (c' : Cache),
        c.HandleGet intSize ["GET", K] = some (Status.RequestNotFound, r, c') →
        shard.get? K = none) ∧
      (∀ (forward : String → String → String) (request r : String),
        connectionReply forward request Status.RequestNotFound r = "-Not found\r\n") := by
  obtain ⟨shard, hshard, hget⟩ := Cache.HandleGet_local intSize c ["GET", K] K rfl hown hs hi
  refine ⟨shard, hshard, ?_, ?_, ?_⟩
  · rw [hget]
    cases hk : shard.get? K with
    | none => simp
    | some v => simp
  · intro r c'
    rw [hget]
    cases hk : shard.get? K with
    | none => simp
    | some v => simp
  · intro forward request r
    rfl

/-- Witness of C3: `GET qux` on the empty single-node cache. -/
theorem C3_witness :
    ∃ shard, sampleSingle.shards[3]? = some shard ∧
      (sampleSingle.HandleGet 64 ["GET", "qux"] = some (Status.RequestNotFound, "", sampleSingle)
        ↔ shard.get? "qux" = none) ∧
      (∀ (r : String) (c' : Cache),
        sampleSingle.HandleGet 64 ["GET", "qux"] = some (Status.RequestNotFound, r, c') →
        shard.get? "qux" = none) ∧
      (∀ (forward : String → String → String) (request r : String),
        connectionReply forward request Status.RequestNotFound r = "-Not found\r\n") :=
  C3_get_miss 64 sampleSingle "qux" (by decide) (by decide) (by decide)

/-! ## What the handlers read and return -/

theorem Cache.HandleSet_congr (intSize : Nat) (c : Cache) (args args' : List String)
    (h1 : args'[1]? = args[1]?) (h2 : args'[2]? = args[2]?) :
    c.HandleSet intSize args' = c.HandleSet intSize args := by
  simp only [Cache.HandleSet, h1, h2]

theorem Cache.HandleGet_congr (intSize : Nat) (c : Cache) (args args' : List String)
    (h1 : args'[1]? = args[1]?) :
    c.HandleGet intSize args' = c.HandleGet intSize args := by
  simp only [Cache.HandleGet, h1]

theorem Cache.HandleJoin_congr (net : Net) (c : Cache) (args args' : List String)
    (h1 : args'[1]? = args[1]?) :
    c.HandleJoin net args' = c.HandleJoin net args := by
  simp only [Cache.HandleJoin, h1]

theorem Cache.HandleRemove_congr (net : Net) (c : Cache) (args args' : List String)
    (h1 : args'[1]? = args[1]?) :
    c.HandleRemove net args' = c.HandleRemove net args := by
  simp only [Cache.HandleRemove, h1]

theorem Cache.HandleSet_status (intSize : Nat) (c : Cache) (args : List String)
    (st : Status) (r : String) (c' : Cache)
    (h : c.HandleSet intSize args = some (st, r, c')) :
    st = Status.ProtocolOtherNode ∨ st = Status.RequestFinish := by
  unfold Cache.HandleSet at h
  repeat' split at h
  all_goals first
    | exact Option.noConfusion h
    | (simp only [Option.some.injEq, Prod.mk.injEq] at h
       first
         | exact Or.inl h.1.symm
         | exact Or.inr h.1.symm)

theorem Cache.HandleGet_status (intSize : Nat) (c : Cache) (args : List String)
    (st : Status) (r : String) (c' : Cache)
    (h : c.HandleGet intSize args = some (st, r, c')) :
    st = Status.ProtocolOtherNode ∨ st = Status.RequestFinish ∨ st = Status.RequestNotFound := by
  unfold Cache.HandleGet at h
  repeat' split at h
  all_goals first
    | exact Option.noConfusion h
    | (simp only [Option.some.injEq, Prod.mk.injEq] at h
       first
         | exact Or.inl h.1.symm
         | exact Or.inr (Or.inl h.1.symm)
         | exact Or.inr (Or.inr h.1.symm))

theorem Cache.HandleJoin_status (net : Net) (c : Cache) (args : List String)
    (st : Status) (r : String) (c' : Cache)
    (h : c.HandleJoin net args = some (st, r, c')) : st = Status.RequestFinish := by
  unfold Cache.HandleJoin at h
  repeat' split at h
  all_goals first
    | exact Option.noConfusion h
    | (simp only [Option.some.injEq, Prod.mk.injEq] at h
       exact h.1.symm)

theorem Cache.HandleRemove_status (net : Net) (c : Cache) (args : List String)
    (st : Status) (r : String) (c' : Cache)
    (h : c.HandleRemove net args = some (st, r, c')) : st = Status.RequestFinish := by
  unfold Cache.HandleRemove at h
  repeat' split at h
  all_goals first
    | exact Option.noConfusion h
    | (simp only [Option.some.injEq, Prod.mk.injEq] at h
       exact h.1.symm)

theorem Cache.HandleSet_isSome (intSize : Nat) (c : Cache) (args : List String)
    (hlen : 3 ≤ args.length) (hs : 0 < c.shards.length) (hi : 32 < intSize) :
    (c.HandleSet intSize args).isSome = true := by
  have h1 : args[1]? = some args[1] := List.getElem?_eq_getElem (by omega)
  have h2 : args[2]? = some args[2] := List.getElem?_eq_getElem (by omega)
  by_cases hown : c.consistency.SetKey args[1] = c.Config.Address
  · obtain ⟨shard, -, hset⟩ := Cache.HandleSet_local intSize c args _ _ h1 h2 hown hs hi
    rw [hset]
    rfl
  · simp only [Cache.HandleSet, h1, Cache.CheckKey_remote c _ hown]
    rfl

theorem Cache.HandleGet_isSome (intSize : Nat) (c : Cache) (args : List String)
    (hlen : 2 ≤ args.length) (hs : 0 < c.shards.length) (hi : 32 < intSize) :
    (c.HandleGet intSize args).isSome = true := by
  have h1 : args[1]? = some args[1] := List.getElem?_eq_getElem (by omega)
  by_cases hown : c.consistency.SetKey args[1] = c.Config.Address
  · obtain ⟨shard, -, hget⟩ := Cache.HandleGet_local intSize c args _ h1 hown hs hi
    rw [hget]
    cases shard.get? args[1] <;> rfl
  · simp only [Cache.HandleGet, h1, Cache.CheckKey_remote c _ hown]
    rfl

theorem Cache.HandleJoin_isSome (net : Net) (c : Cache) (args : List String)
    (hlen : 2 ≤ args.length) : (c.HandleJoin net args).isSome = true := by
  have h1 : args[1]? = some args[1] := List.getElem?_eq_getElem (by omega)
  simp only [Cache.HandleJoin, h1]
  split
  · split <;> rfl
  · rfl

theorem Cache.HandleRemove_isSome (net : Net) (c : Cache) (args : List String)
    (hlen : 2 ≤ args.length) : (c.HandleRemove net args).isSome = true := by
  have h1 : args[1]? = some args[1] := List.getElem?_eq_getElem (by omega)
  simp only [Cache.HandleRemove, h1]
  split
  · rfl
  · split <;> rfl

theorem Cache.HandleCommand_ping (intSize : Nat) (net : Net) (c : Cache) (args : List String)
    (verb : String) (h0 : args[0]? = some verb) (h : ToUpper verb = "PING") :
    Cache.HandleCommand intSize net c ⟨args⟩ = c.HandlePing args := by
  simp +decide only [Cache.HandleCommand, h0, h, if_true, if_false]

theorem Cache.HandleCommand_set (intSize : Nat) (net : Net) (c : Cache) (args : List String)
    (verb : String) (h0 : args[0]? = some verb) (h : ToUpper verb = "SET") :
    Cache.HandleCommand intSize net c ⟨args⟩ = c.HandleSet intSize args := by
  simp +decide only [Cache.HandleCommand, h0, h, if_true, if_false]

theorem Cache.HandleCommand_get (intSize : Nat) (net : Net) (c : Cache) (args : List String)
    (verb : String) (h0 : args[0]? = some verb) (h : ToUpper verb = "GET") :
    Cache.HandleCommand intSize net c ⟨args⟩ = c.HandleGet intSize args := by
  simp +decide only [Cache.HandleCommand, h0, h, if_true, if_false]

theorem Cache.HandleCommand_info (intSize : Nat) (net : Net) (c : Cache) (args : List String)
    (verb : String) (h0 : args[0]? = some verb) (h : ToUpper verb = "INFO") :
    Cache.HandleCommand intSize net c ⟨args⟩ = c.HandleInfo args := by
  simp +decide only [Cache.HandleCommand, h0, h, if_true, if_false]

theorem Cache.HandleCommand_join (intSize : Nat) (net : Net) (c : Cache) (args : List String)
    (verb : String) (h0 : args[0]? = some verb) (h : ToUpper verb = "JOIN") :
    Cache.HandleCommand intSize net c ⟨args⟩ = c.HandleJoin net args := by
  simp +decide only [Cache.HandleCommand, h0, h, if_true, if_false]

theorem Cache.HandleCommand_remove (intSize : Nat) (net : Net) (c : Cache) (args : List String)
    (verb : String) (h0 : args[0]? = some verb) (h : ToUpper verb = "REMOVE") :
    Cache.HandleCommand intSize net c ⟨args⟩ = c.HandleRemove net args := by
  simp +decide only [Cache.HandleCommand, h0, h, if_true, if_false]

theorem Cache.HandleCommand_other (intSize : Nat) (net : Net) (c : Cache) (args : List String)
    (verb : String) (h0 : args[0]? = some verb) (h : ToUpper verb ∉ verbs) :
    Cache.HandleCommand intSize net c ⟨args⟩ = some (Status.ProtocolNotSupport, "", c) := by
  simp only [verbs, List.mem_cons, List.mem_singleton, List.not_mem_nil, or_false,
    not_or] at h
  obtain ⟨h1, h2, h3, h4, h5, h6⟩ := h
  simp only [Cache.HandleCommand, h0, h1, h2, h3, h4, h5, h6, if_false, ite_self]

/-! ## The dispatcher -/

/-- C4, the claim refuted: `HandleCommand` does not look at the number of arguments.
On a single-node cache `PING` with two arguments is answered `+PONG`, `SET` with four
arguments stores the value, and `GET` with one argument fails on the read of
`args[1]`. -/
theorem C4_counterexample :
    (Cache.HandleCommand 64 netDown sampleSingle ⟨["PING", "extra"]⟩).map
        (fun o => (o.1, o.2.1)) = some (Status.RequestFinish, "+PONG\r\n") ∧
    (Cache.HandleCommand 64 netDown sampleSingle ⟨["SET", "foo", "bar", "baz"]⟩).map
        (fun o => (o.1, o.2.1, o.2.2.shards.map GoMap.entries))
      = some (Status.RequestFinish, "+OK\r\n", [[], [], [], [("foo", "bar")]]) ∧
    (Cache.HandleCommand 64 netDown sampleSingle ⟨["GET"]⟩).isNone = true := by
  refine ⟨by decide, by decide, by decide⟩

/-- C4, amended. For a command whose verb is one of PING, SET, GET, INFO, JOIN, REMOVE
and that has at least as many arguments as the arity of the verb, `HandleCommand`
ignores the arguments beyond the arity: it gives the result it gives for the first
arity arguments and that result never has the status `ProtocolNotSupport`. The call
does not fail for PING, INFO, JOIN and REMOVE, and it does not fail for SET and GET
either when there is at least one shard and the `int` is wider than 32 bits. -/
theorem C4_surplus_arguments_ignored (intSize : Nat) (net : Net) (c : Cache)
    (args : List String) (verb : String)
    (h0 : args[0]? = some verb) (hverb : ToUpper verb ∈ verbs)
    (har : verbArity (ToUpper verb) ≤ args.length) :
    Cache.HandleCommand intSize net c ⟨args⟩
      = Cache.HandleCommand intSize net c ⟨args.take (verbArity (ToUpper verb))⟩ ∧
    (∀ (st : Status) (r : String) (c' : Cache),
      Cache.HandleCommand intSize net c ⟨args⟩ = some (st, r, c') →
      st ≠ Status.ProtocolNotSupport) ∧
    (ToUpper verb ≠ "SET" → ToUpper verb ≠ "GET" →
      (Cache.HandleCommand intSize net c ⟨args⟩).isSome = true) ∧
    (0 < c.shards.length → 32 < intSize →
      (Cache.HandleCommand intSize net c ⟨args⟩).isSome = true) := by
  have hpos : 0 < args.length := by
    cases args with
    | nil => simp at h0
    | cons a t => simp
  have htake : ∀ n, 0 < n → (args.take n)[0]? = some verb := by
    intro n hn
    rw [List.getElem?_take_of_lt hn, h0]
  simp only [verbs, List.mem_cons, List.mem_singleton, List.not_mem_nil, or_false] at hverb
  rcases hverb with h | h | h | h | h | h
  · rw [h] at har ⊢
    rw [Cache.HandleCommand_ping intSize net c args verb h0 h,
      Cache.HandleCommand_ping intSize net c _ verb (htake _ (by decide)) h]
    refine ⟨rfl, ?_, fun _ _ => rfl, fun _ _ => rfl⟩
    intro st r c' hres
    simp only [Cache.HandlePing, Option.some.injEq, Prod.mk.injEq] at hres
    rw [← hres.1]
    decide
  · rw [h] at har ⊢
    have har' : 3 ≤ args.length := har
    rw [Cache.HandleCommand_set intSize net c args verb h0 h,
      Cache.HandleCommand_set intSize net c _ verb (htake _ (by decide)) h]
    refine ⟨(Cache.HandleSet_congr intSize c args _ (List.getElem?_take_of_lt (by decide))
      (List.getElem?_take_of_lt (by decide))).symm, ?_,
      fun hne _ => absurd rfl hne,
      fun hs hi => Cache.HandleSet_isSome intSize c args har' hs hi⟩
    intro st r c' hres
    rcases Cache.HandleSet_status intSize c args st r c' hres with hst | hst <;>
      (rw [hst]; decide)
  · rw [h] at har ⊢
    have har' : 2 ≤ args.length := har
    rw [Cache.HandleCommand_get intSize net c args verb h0 h,
      Cache.HandleCommand_get intSize net c _ verb (htake _ (by decide)) h]
    refine ⟨(Cache.HandleGet_congr intSize c args _
      (List.getElem?_take_of_lt (by decide))).symm, ?_,
      fun _ hne => absurd rfl hne,
      fun hs hi => Cache.HandleGet_isSome intSize c args har' hs hi⟩
    intro st r c' hres
    rcases Cache.HandleGet_status intSize c args st r c' hres with hst | hst | hst <;>
      (rw [hst]; decide)
  · rw [h] at har ⊢
    rw [Cache.HandleCommand_info intSize net c args verb h0 h,
      Cache.HandleCommand_info intSize net c _ verb (htake _ (by decide)) h]
    refine ⟨rfl, ?_, fun _ _ => rfl, fun _ _ => rfl⟩
    intro st r c' hres
    simp only [Cache.HandleInfo, Option.some.injEq, Prod.mk.injEq] at hres
    rw [← hres.1]
    decide
  · rw [h] at har ⊢
    have har' : 2 ≤ args.length := har
    rw [Cache.HandleCommand_join intSize net c args verb h0 h,
      Cache.HandleCommand_join intSize net c _ verb (htake _ (by decide)) h]
    refine ⟨(Cache.HandleJoin_congr net c args _
      (List.getElem?_take_of_lt (by decide))).symm, ?_,
      fun _ _ => Cache.HandleJoin_isSome net c args har',
      fun _ _ => Cache.HandleJoin_isSome net c args har'⟩
    intro st r c' hres
    rw [Cache.HandleJoin_status net c args st r c' hres]
    decide
  · rw [h] at har ⊢
    have har' : 2 ≤ args.length := har
    rw [Cache.HandleCommand_remove intSize net c args verb h0 h,
      Cache.HandleCommand_remove intSize net c _ verb (htake _ (by decide)) h]
    refine ⟨(Cache.HandleRemove_congr net c args _
      (List.getElem?_take_of_lt (by decide))).symm, ?_,
      fun _ _ => Cache.HandleRemove_isSome net c args har',
      fun _ _ => Cache.HandleRemove_isSome net c args har'⟩
    intro st r c' hres
    rw [Cache.HandleRemove_status net c args st r c' hres]
    decide

/-- Witness of C4, amended: `set foo bar baz` is handled as `set foo bar` and does not
fail on the four-shard cache with a 64-bit `int`; `join` with a surplus argument does
not fail even on a 32-bit `int`. -/
theorem C4_witness :
    (Cache.HandleCommand 64 netDown sampleSingle ⟨["set", "foo", "bar", "baz"]⟩
        = Cache.HandleCommand 64 netDown sampleSingle ⟨["set", "foo", "bar"]⟩ ∧
      (∀ (st : Status) (r : String) (c' : Cache),
        Cache.HandleCommand 64 netDown sampleSingle ⟨["set", "foo", "bar", "baz"]⟩
          = some (st, r, c') →
        st ≠ Status.ProtocolNotSupport) ∧
      (Cache.HandleCommand 64 netDown sampleSingle ⟨["set", "foo", "bar", "baz"]⟩).isSome
        = true) ∧
    (Cache.HandleCommand 32 netDown sampleSingle ⟨["join", "127.0.0.1:6002", "extra"]⟩).isSome
      = true :=
  have h := C4_surplus_arguments_ignored 64 netDown sampleSingle ["set", "foo", "bar", "baz"]
    "set" rfl (by decide) (by decide)
  have h' := C4_surplus_arguments_ignored 32 netDown sampleSingle
    ["join", "127.0.0.1:6002", "extra"] "join" rfl (by decide) (by decide)
  ⟨⟨h.1, h.2.1, h.2.2.2 (by decide) (by decide)⟩, h'.2.2.1 (by decide) (by decide)⟩

theorem upperRune_of_plain (ch : Char) (h1 : ch.toNat ≠ 0x131) (h2 : ch.toNat ≠ 0x17F) :
    upperRune ch = asciiUpper ch := by
  unfold upperRune asciiUpper
  by_cases h : 97 ≤ ch.toNat ∧ ch.toNat ≤ 122
  · rw [if_pos h, if_pos h]
  · rw [if_neg h, if_neg h, if_neg h1, if_neg h2]

/-- A verb without dotless i and long s that upper-cases to one of the six verbs is a
letter-case variant of that verb. -/
theorem caseVariant_of_ToUpper_mem (verb : String)
    (hplain : ∀ ch ∈ verb.data, ch.toNat ≠ 0x131 ∧ ch.toNat ≠ 0x17F)
    (hmem : ToUpper verb ∈ verbs) : ∃ w ∈ verbs, caseVariant verb w := by
  have hdata : (ToUpper verb).data = verb.data.map asciiUpper := by
    unfold ToUpper
    apply List.map_congr_left
    intro ch hch
    exact upperRune_of_plain ch (hplain ch hch).1 (hplain ch hch).2
  have hfix : ∀ w ∈ verbs, w.data.map asciiUpper = w.data := by decide
  refine ⟨ToUpper verb, hmem, ?_⟩
  unfold caseVariant
  rw [hfix _ hmem, hdata]

/-- C5, the claim refuted: `pıng` and `joın`, written with the dotless i (U+0131), are
letter-case variants of none of the six verbs, yet `HandleCommand` answers the first
with `+PONG` and lets the second add a peer to the membership table; neither gets
`ProtocolNotSupport`. -/
theorem C5_counterexample :
    (∀ w ∈ verbs, ¬ caseVariant "pıng" w) ∧
    (∀ w ∈ verbs, ¬ caseVariant "joın" w) ∧
    (Cache.HandleCommand 64 netDown sampleSingle ⟨["pıng"]⟩).map (fun o => (o.1, o.2.1))
      = some (Status.RequestFinish, "+PONG\r\n") ∧
    (Cache.HandleCommand 64 netDown sampleSingle ⟨["joın", "127.0.0.1:6002"]⟩).map
        (fun o => (o.1, o.2.1, o.2.2.RouteTable.entries))
      = some (Status.RequestFinish, "*1\r\n$2\r\nOK\r\n", [("127.0.0.1:6002", false)]) := by
  refine ⟨by decide, by decide, by decide, by decide⟩

/-- C5, amended. Unknown verb is rejected: for a command with at least one argument
whose verb is a letter-case variant of none of PING, SET, GET, INFO, JOIN, REMOVE
(COMMAND is such a verb) and contains neither the dotless i (U+0131) nor the long s
(U+017F), and more generally for every verb that `strings.ToUpper` maps to none of the
six, `HandleCommand` returns `(ProtocolNotSupport, "")` and the state it was given, so
neither the store nor the membership table changes, and the connection handler sends
exactly `"-Protocol not support\r\n"` for that status. -/
theorem C5_unknown_verb_rejected (intSize : Nat) (net : Net) (c : Cache)
    (args : List String) (verb : String) (h0 : args[0]? = some verb) :
    ((∀ w ∈ verbs, ¬ caseVariant verb w) →
      (∀ ch ∈ verb.data, ch.toNat ≠ 0x131 ∧ ch.toNat ≠ 0x17F) →
      Cache.HandleCommand intSize net c ⟨args⟩ = some (Status.ProtocolNotSupport, "", c)) ∧
    (ToUpper verb ∉ verbs →
      Cache.HandleCommand intSize net c ⟨args⟩ = some (Status.ProtocolNotSupport, "", c)) ∧
    (∀ (forward : String → String → String) (request : String),
      connectionReply forward request Status.ProtocolNotSupport ""
        = "-Protocol not support\r\n") := by
  refine ⟨?_, ?_, fun _ _ => rfl⟩
  · intro hnot hplain
    apply Cache.HandleCommand_other intSize net c args verb h0
    intro hmem
    obtain ⟨w, hw, hvw⟩ := caseVariant_of_ToUpper_mem verb hplain hmem
    exact hnot w hw hvw
  · intro hverb
    exact Cache.HandleCommand_other intSize net c args verb h0 hverb

/-- Witness of C5, amended: the one-argument command `HELLO`, and `command docs`. -/
theorem C5_witness :
    Cache.HandleCommand 64 netDown sampleSingle ⟨["HELLO"]⟩
      = some (Status.ProtocolNotSupport, "", sampleSingle) ∧
    Cache.HandleCommand 32 netUp sampleTwo ⟨["command", "docs"]⟩
      = some (Status.ProtocolNotSupport, "", sampleTwo) ∧
    Cache.HandleCommand 64 netUp sampleTwo ⟨["ıı"]⟩
      = some (Status.ProtocolNotSupport, "", sampleTwo) :=
  ⟨(C5_unknown_verb_rejected 64 netDown sampleSingle ["HELLO"] "HELLO" rfl).1
      (by decide) (by decide),
   (C5_unknown_verb_rejected 32 netUp sampleTwo ["command", "docs"] "command" rfl).1
      (by decide) (by decide),
   (C5_unknown_verb_rejected 64 netUp sampleTwo ["ıı"] "ıı" rfl).2.1 (by decide)⟩

/-! ## Lemmas on replies -/

theorem foldl_append_eq (init : String) (l : List String) :
    l.foldl (fun r s => r ++ s) init = init ++ String.join l := by
  induction l generalizing init with
  | nil => simp [String.join]
  | cons a t ih =>
    have h1 := ih (init ++ a)
    have h2 := ih ("" ++ a)
    simp only [List.foldl_cons, String.join] at h1 h2 ⊢
    rw [h1, h2, String.empty_append, String.append_assoc]

theorem foldl_append_map {α : Type} (f : α → String) (init : String) (l : List α) :
    l.foldl (fun r e => r ++ f e) init = init ++ String.join (l.map f) := by
  rw [← foldl_append_eq, List.foldl_map]

theorem joinBroadcast_fst (net : Net) (joinAddr : String) (routeTable : List String)
    (acc : String × List (String × String)) :
    (routeTable.foldl (Cache.joinStep net joinAddr) acc).1
      = acc.1 ++ String.join (routeTable.map bulk) := by
  induction routeTable generalizing acc with
  | nil => simp [String.join]
  | cons a t ih =>
    rw [List.foldl_cons, ih]
    have hstep : (Cache.joinStep net joinAddr acc a).1 = acc.1 ++ bulk a := by
      unfold Cache.joinStep
      split
      · rfl
      · split <;> rfl
    rw [hstep, List.map_cons]
    have hj : String.join (bulk a :: t.map bulk) = bulk a ++ String.join (t.map bulk) := by
      have := foldl_append_eq ("" ++ bulk a) (t.map bulk)
      simp only [String.join, List.foldl_cons]
      rw [String.empty_append] at this
      rw [String.empty_append]
      exact this
    rw [hj, String.append_assoc]

theorem append_right_cancel (p q s : String) (h : p ++ s = q ++ s) : p = q := by
  have h' := congrArg String.data h
  simp only [String.data_append, List.append_left_inj] at h'
  exact String.ext h'

theorem up_ne_down (p q : String) : p ++ ": Up" ≠ q ++ ": Down" := by
  intro h
  have h' := congrArg (fun s => s.data.reverse.head?) h
  simp [String.data_append] at h'

/-- The text of a peer in the `INFO` reply determines the peer and its flag. -/
theorem statusText_inj (p q : String) (a b : Bool)
    (h : p ++ (if a = true then ": Up" else ": Down")
      = q ++ (if b = true then ": Up" else ": Down")) : p = q ∧ a = b := by
  cases a <;> cases b
  · exact ⟨append_right_cancel p q _ h, rfl⟩
  · exact absurd h.symm (up_ne_down q p)
  · exact absurd h (up_ne_down p q)
  · exact ⟨append_right_cancel p q _ h, rfl⟩

theorem mem_of_lookupEntries {β : Type} (l : List (String × β)) (k : String) (v : β)
    (h : lookupEntries l k = some v) : (k, v) ∈ l := by
  induction l with
  | nil => simp [lookupEntries] at h
  | cons e t ih =>
    unfold lookupEntries at h
    by_cases hk : e.1 = k
    · rw [if_pos hk] at h
      cases h
      rw [← hk]
      exact List.mem_cons_self _ _
    · rw [if_neg hk] at h
      exact List.mem_cons_of_mem _ (ih h)

theorem lookupEntries_eq_none {β : Type} (l : List (String × β)) (k : String) :
    lookupEntries l k = none ↔ k ∉ l.map Prod.fst := by
  induction l with
  | nil => simp [lookupEntries]
  | cons e t ih =>
    unfold lookupEntries
    by_cases hk : e.1 = k
    · simp [hk]
    · rw [if_neg hk, ih]
      simp [hk, Ne.symm hk]

theorem length_setEntries_of_none {β : Type} (l : List (String × β)) (k : String) (v : β)
    (h : lookupEntries l k = none) : (setEntries l k v).length = l.length + 1 := by
  induction l with
  | nil => rfl
  | cons e t ih =>
    unfold lookupEntries at h
    by_cases hk : e.1 = k
    · rw [if_pos hk] at h
      exact Option.noConfusion h
    · rw [if_neg hk] at h
      unfold setEntries
      rw [if_neg hk, List.length_cons, ih h, List.length_cons]

/-! ## INFO and JOIN -/

/-- C6. INFO completeness and encoding: `HandleInfo` returns `RequestFinish` with the
array head `*<|M|+1>`, the bulk string `$15 Connect status:`, and then one bulk string
per entry of the membership table `M`, in the order the table is visited, each
`$<byte length>\r\n<p>: Up\r\n` or `$<byte length>\r\n<p>: Down\r\n` after the flag of
`p`. There are `|M|` of them, they are pairwise different, every peer of `M` has its
own, and a local address that is not a key of `M` is not listed. The state is
unchanged. -/
theorem C6_info_reply (c : Cache) (args : List String) :
    ∃ lines : List String,
      lines = c.RouteTable.entries.map
        (fun e => e.1 ++ (if e.2 = true then ": Up" else ": Down")) ∧
      c.HandleInfo args = some (Status.RequestFinish,
        "*" ++ toString (c.RouteTable.len + 1) ++ "\r\n" ++ "$15\r\nConnect status:\r\n" ++
          String.join (lines.map
            (fun s => "$" ++ toString s.utf8ByteSize ++ "\r\n" ++ s ++ "\r\n")), c) ∧
      lines.length = c.RouteTable.len ∧
      lines.Nodup ∧
      (∀ (p : String) (up : Bool), c.RouteTable.get? p = some up →
        (p ++ (if up = true then ": Up" else ": Down")) ∈ lines) ∧
      (c.RouteTable.get? c.Config.Address = none →
        (c.Config.Address ++ ": Up") ∉ lines ∧ (c.Config.Address ++ ": Down") ∉ lines) := by
  refine ⟨_, rfl, ?_, ?_, ?_, ?_, ?_⟩
  · unfold Cache.HandleInfo
    simp only []
    rw [foldl_append_map, List.map_map]
    have hline : Cache.infoLine
        = (fun s => "$" ++ toString s.utf8ByteSize ++ "\r\n" ++ s ++ "\r\n") ∘
            (fun e : String × Bool => e.1 ++ (if e.2 = true then ": Up" else ": Down")) := by
      funext e
      obtain ⟨p, b⟩ := e
      cases b
      · simp only [Cache.infoLine, bulk, Function.comp, String.append_assoc]
        rfl
      · simp only [Cache.infoLine, bulk, Function.comp, String.append_assoc]
        rfl
    rw [hline]
    rfl
  · simp [GoMap.len]
  · refine List.Nodup.map_on ?_ (List.Nodup.of_map Prod.fst c.RouteTable.nodup)
    intro x _ y _ hxy
    obtain ⟨h1, h2⟩ := statusText_inj x.1 y.1 x.2 y.2 hxy
    exact Prod.ext h1 h2
  · intro p up hp
    exact List.mem_map.mpr ⟨(p, up), mem_of_lookupEntries _ _ _ hp, rfl⟩
  · intro hself
    have hnot : c.Config.Address ∉ c.RouteTable.entries.map Prod.fst :=
      (lookupEntries_eq_none _ _).mp hself
    constructor
    · intro hmem
      obtain ⟨e, he, heq⟩ := List.mem_map.mp hmem
      have := (statusText_inj e.1 c.Config.Address e.2 true heq).1
      exact hnot (List.mem_map.mpr ⟨e, he, this⟩)
    · intro hmem
      obtain ⟨e, he, heq⟩ := List.mem_map.mp hmem
      have := (statusText_inj e.1 c.Config.Address e.2 false heq).1
      exact hnot (List.mem_map.mpr ⟨e, he, this⟩)

/-- Witness of C6: the two-node cache with its peer Up. -/
theorem C6_witness :
    sampleTwo.HandleInfo ["INFO"] = some (Status.RequestFinish,
      "*2\r\n$15\r\nConnect status:\r\n$18\r\n127.0.0.1:6001: Up\r\n", sampleTwo) ∧
    ("127.0.0.1:6000: Up" ∉ ["127.0.0.1:6001: Up"] ∧
      "127.0.0.1:6000: Down" ∉ ["127.0.0.1:6001: Up"]) := by
  obtain ⟨lines, hlines, hreply, -, -, -, hself⟩ := C6_info_reply sampleTwo ["INFO"]
  have hl : lines = ["127.0.0.1:6001: Up"] := by rw [hlines]; decide
  subst hl
  exact ⟨hreply, hself (by decide)⟩

/-- The result of `HandleJoin` on a two-argument command, branch by branch. -/
theorem Cache.HandleJoin_eq (net : Net) (c : Cache) (addr : String) :
    c.HandleJoin net ["JOIN", addr] = some (Status.RequestFinish,
      arrayHead (c.RouteTable.len + 1) ++ "$2\r\nOK\r\n" ++ String.join (c.RouteTable.keys.map bulk),
      if addr ≠ c.Config.Address ∧ c.RouteTable.get? addr = none
      then { c with RouteTable := c.RouteTable.set addr false } else c) := by
  have hargs : (["JOIN", addr] : List String)[1]? = some addr := rfl
  simp only [Cache.HandleJoin, hargs, Cache.joinBroadcast, joinBroadcast_fst]
  by_cases h1 : addr = c.Config.Address
  · simp [h1]
  · cases h2 : c.RouteTable.get? addr with
    | none => simp [h1]
    | some b => simp [h1]

/-- C7. JOIN reply: for every membership table `M` (the table before the join), every
address and every outcome of the broadcast, `HandleJoin(["JOIN", addr])` returns
`RequestFinish` with `*<|M|+1>\r\n$2\r\nOK\r\n` followed by the bulk strings
`$<byte length of p>\r\n<p>\r\n` of the keys `p` of `M`, in the order the table is
visited: `|M|` of them, each key of `M` once. The reply does not mention the
network, so it is the same whichever connections succeed. -/
theorem C7_join_reply (net : Net) (c : Cache) (addr : String) :
    ∃ c' : Cache,
      c.HandleJoin net ["JOIN", addr] = some (Status.RequestFinish,
        "*" ++ toString (c.RouteTable.len + 1) ++ "\r\n" ++ "$2\r\nOK\r\n" ++
          String.join (c.RouteTable.keys.map
            (fun p => "$" ++ toString p.utf8ByteSize ++ "\r\n" ++ p ++ "\r\n")), c') ∧
      c.RouteTable.keys.length = c.RouteTable.len ∧
      c.RouteTable.keys.Nodup ∧
      (∀ p : String, p ∈ c.RouteTable.keys ↔ (c.RouteTable.get? p).isSome = true) := by
  refine ⟨_, Cache.HandleJoin_eq net c addr, ?_, c.RouteTable.nodup, ?_⟩
  · simp [GoMap.keys, GoMap.len]
  · intro p
    have h := lookupEntries_eq_none c.RouteTable.entries p
    unfold GoMap.keys GoMap.get?
    cases hl : lookupEntries c.RouteTable.entries p with
    | none =>
      rw [hl] at h
      simp only [true_iff] at h
      simp [h]
    | some b =>
      rw [hl] at h
      simp only [false_iff, not_not, reduceCtorEq] at h
      simp [h]

/-- Witness of C7: an empty membership table gives `*1\r\n$2\r\nOK\r\n`. -/
theorem C7_witness :
    ∃ c' : Cache, sampleSingle.HandleJoin netDown ["JOIN", "127.0.0.1:6002"]
      = some (Status.RequestFinish, "*1\r\n$2\r\nOK\r\n", c') := by
  obtain ⟨c', h, -⟩ := C7_join_reply netDown sampleSingle "127.0.0.1:6002"
  exact ⟨c', h⟩

/-- C8. JOIN membership effect: for every membership table `M`, every address and
every outcome of the broadcast, `HandleJoin(["JOIN", addr])` returns and leaves a
table that, when `addr` is not the local address and not a key of `M`, holds `addr`
with the flag Down and has one entry more than `M`, and that is `M` itself otherwise;
in both cases the entry and flag of every other peer are those of `M`, and the
configuration, the ring and the shards are as before. -/
theorem C8_join_membership (net : Net) (c : Cache) (addr : String) :
    ∃ (r : String) (c' : Cache),
      c.HandleJoin net ["JOIN", addr] = some (Status.RequestFinish, r, c') ∧
      (addr ≠ c.Config.Address ∧ c.RouteTable.get? addr = none →
        c'.RouteTable.get? addr = some false ∧
        c'.RouteTable.len = c.RouteTable.len + 1 ∧
        (∀ p : String, p ∈ c'.RouteTable.keys ↔ p = addr ∨ p ∈ c.RouteTable.keys)) ∧
      (¬ (addr ≠ c.Config.Address ∧ c.RouteTable.get? addr = none) →
        c'.RouteTable = c.RouteTable) ∧
      (∀ p : String, p ≠ addr → c'.RouteTable.get? p = c.RouteTable.get? p) ∧
      c'.Config = c.Config ∧ c'.consistency = c.consistency ∧ c'.shards = c.shards := by
  refine ⟨_, _, Cache.HandleJoin_eq net c addr, ?_, ?_, ?_, ?_⟩
  · intro h
    rw [if_pos h]
    refine ⟨?_, ?_, ?_⟩
    · simp [GoMap.get?_set]
    · exact length_setEntries_of_none _ _ _ h.2
    · intro p
      exact mem_keys_setEntries _ _ _ _
  · intro h
    rw [if_neg h]
  · intro p hp
    by_cases h : addr ≠ c.Config.Address ∧ c.RouteTable.get? addr = none
    · rw [if_pos h]
      simp [GoMap.get?_set, hp]
    · rw [if_neg h]
  · by_cases h : addr ≠ c.Config.Address ∧ c.RouteTable.get? addr = none
    · rw [if_pos h]
      exact ⟨rfl, rfl, rfl⟩
    · rw [if_neg h]
      exact ⟨rfl, rfl, rfl⟩

/-- Witness of C8: a third node joins the two-node cache. -/
theorem C8_witness :
    ∃ (r : String) (c' : Cache),
      sampleTwo.HandleJoin netUp ["JOIN", "127.0.0.1:6002"]
        = some (Status.RequestFinish, r, c') ∧
      c'.RouteTable.get? "127.0.0.1:6002" = some false ∧
      c'.RouteTable.len = 2 ∧
      c'.RouteTable.get? "127.0.0.1:6001" = some true := by
  obtain ⟨r, c', h, hnew, -, hother, -⟩ := C8_join_membership netUp sampleTwo "127.0.0.1:6002"
  obtain ⟨h1, h2, -⟩ := hnew ⟨by decide, by decide⟩
  exact ⟨r, c', h, h1, h2, (hother "127.0.0.1:6001" (by decide)).trans (by decide)⟩

/-- C9. Idempotent JOIN: for every cache state, every address `X` and every outcome
of the two broadcasts, `HandleJoin(["JOIN", X])` applied twice in succession leaves
the membership table (keys and flags), and the whole state, that the first
application leaves. -/
theorem C9_join_idempotent (net1 net2 : Net) (c : Cache) (X : String) :
    ∃ (r1 r2 : String) (c1 c2 : Cache),
      c.HandleJoin net1 ["JOIN", X] = some (Status.RequestFinish, r1, c1) ∧
      c1.HandleJoin net2 ["JOIN", X] = some (Status.RequestFinish, r2, c2) ∧
      c2.RouteTable = c1.RouteTable ∧ c2 = c1 := by
  refine ⟨_, _, _, _, Cache.HandleJoin_eq net1 c X, Cache.HandleJoin_eq net2 _ X, ?_⟩
  have key : (if X ≠ (if X ≠ c.Config.Address ∧ c.RouteTable.get? X = none
          then { c with RouteTable := c.RouteTable.set X false } else c).Config.Address ∧
        (if X ≠ c.Config.Address ∧ c.RouteTable.get? X = none
          then { c with RouteTable := c.RouteTable.set X false } else c).RouteTable.get? X = none
      then { (if X ≠ c.Config.Address ∧ c.RouteTable.get? X = none
          then { c with RouteTable := c.RouteTable.set X false } else c) with
        RouteTable := (if X ≠ c.Config.Address ∧ c.RouteTable.get? X = none
          then { c with RouteTable := c.RouteTable.set X false } else c).RouteTable.set X false }
      else (if X ≠ c.Config.Address ∧ c.RouteTable.get? X = none
          then { c with RouteTable := c.RouteTable.set X false } else c))
      = (if X ≠ c.Config.Address ∧ c.RouteTable.get? X = none
          then { c with RouteTable := c.RouteTable.set X false } else c) := by
    by_cases h : X ≠ c.Config.Address ∧ c.RouteTable.get? X = none
    · rw [if_pos h]
      rw [if_neg]
      simp [GoMap.get?_set]
    · rw [if_neg h, if_neg h]
  exact ⟨congrArg Cache.RouteTable key, key⟩

/-- C10, the claim refuted: on a single-node cache whose ring holds the local address
only, `JOIN 127.0.0.1:6002` (not local, not in the membership table) puts the address
into the membership table, yet the ring still holds the local address only and the
key `foo` still belongs to the local node. -/
theorem C10_counterexample :
    (sampleSingle.HandleJoin netUp ["JOIN", "127.0.0.1:6002"]).map
        (fun o => (o.1, o.2.2.RouteTable.entries, o.2.2.consistency.nodes,
          o.2.2.CheckKey "foo"))
      = some (Status.RequestFinish, [("127.0.0.1:6002", false)], ["127.0.0.1:6000"],
          (true, "")) ∧
    "127.0.0.1:6002" ≠ sampleSingle.Config.Address ∧
    sampleSingle.RouteTable.get? "127.0.0.1:6002" = none ∧
    "127.0.0.1:6002" ∉ ["127.0.0.1:6000"] := by
  refine ⟨by decide, by decide, by decide, by decide⟩

/-- C10, amended. `HandleJoin` does not touch the ring: for every cache state, every
address and every outcome of the broadcast, after `HandleJoin(["JOIN", addr])` the
ring used by `CheckKey` is the ring from before the call, with the same nodes, and
`CheckKey` gives every key the answer it gave before. -/
theorem C10_join_keeps_ring (net : Net) (c : Cache) (addr : String) :
    ∃ (r : String) (c' : Cache),
      c.HandleJoin net ["JOIN", addr] = some (Status.RequestFinish, r, c') ∧
      c'.consistency = c.consistency ∧
      c'.consistency.nodes = c.consistency.nodes ∧
      (∀ key : String, c'.CheckKey key = c.CheckKey key) := by
  refine ⟨_, _, Cache.HandleJoin_eq net c addr, ?_⟩
  by_cases h : addr ≠ c.Config.Address ∧ c.RouteTable.get? addr = none
  · rw [if_pos h]
    exact ⟨rfl, rfl, fun _ => rfl⟩
  · rw [if_neg h]
    exact ⟨rfl, rfl, fun _ => rfl⟩

/-! ## REMOVE -/

theorem lookupEntries_deleteEntries {β : Type} (l : List (String × β)) (k x : String) :
    lookupEntries (deleteEntries l k) x = if x = k then none else lookupEntries l x := by
  induction l with
  | nil => simp [deleteEntries, lookupEntries]
  | cons e t ih =>
    unfold deleteEntries at ih ⊢
    by_cases hk : e.1 = k
    · rw [List.filter_cons_of_neg (by simpa using hk), ih]
      by_cases hx : x = k
      · simp [hx]
      · have : ¬ e.1 = x := fun h => hx (h ▸ hk)
        simp [hx, lookupEntries, this]
    · rw [List.filter_cons_of_pos (by simpa using hk)]
      unfold lookupEntries
      rw [ih]
      by_cases hx : x = k
      · subst hx
        simp [hk]
      · simp [hx]

theorem GoMap.get?_delete {β : Type} (m : GoMap β) (k x : String) :
    (m.delete k).get? x = if x = k then none else m.get? x :=
  lookupEntries_deleteEntries m.entries k x

theorem mem_keys_deleteEntries {β : Type} (l : List (String × β)) (k x : String) :
    x ∈ (deleteEntries l k).map Prod.fst ↔ x ≠ k ∧ x ∈ l.map Prod.fst := by
  unfold deleteEntries
  simp only [List.mem_map, List.mem_filter, decide_eq_true_eq]
  constructor
  · rintro ⟨e, ⟨he, hne⟩, rfl⟩
    exact ⟨hne, e, he, rfl⟩
  · rintro ⟨hne, e, he, rfl⟩
    exact ⟨e, ⟨he, hne⟩, rfl⟩

theorem length_deleteEntries_of_mem {β : Type} (l : List (String × β)) (k : String)
    (hn : (l.map Prod.fst).Nodup) (hk : k ∈ l.map Prod.fst) :
    (deleteEntries l k).length + 1 = l.length := by
  induction l with
  | nil => simp at hk
  | cons e t ih =>
    rw [List.map_cons, List.nodup_cons] at hn
    unfold deleteEntries at ih ⊢
    by_cases he : e.1 = k
    · rw [List.filter_cons_of_neg (by simpa using he)]
      have hnot : k ∉ t.map Prod.fst := he ▸ hn.1
      have hall : t.filter (fun e => decide (e.1 ≠ k)) = t := by
        rw [List.filter_eq_self]
        intro a ha
        have : a.1 ≠ k := fun h => hnot (h ▸ List.mem_map_of_mem Prod.fst ha)
        simpa using this
      rw [hall, List.length_cons]
    · rw [List.filter_cons_of_pos (by simpa using he), List.length_cons, List.length_cons]
      have hk' : k ∈ t.map Prod.fst := by
        rw [List.map_cons, List.mem_cons] at hk
        rcases hk with h | h
        · exact absurd h.symm he
        · exact h
      rw [ih hn.2 hk']

/-- Deleting every key of a list of keys leaves the entries whose key is not listed. -/
theorem entries_foldl_delete {β : Type} (ks : List String) (m : GoMap β) :
    (ks.foldl (fun (r : GoMap β) node => r.delete node) m).entries
      = m.entries.filter (fun e => decide (e.1 ∉ ks)) := by
  induction ks generalizing m with
  | nil => simp
  | cons k t ih =>
    rw [List.foldl_cons, ih]
    simp only [GoMap.delete, deleteEntries, List.filter_filter]
    apply List.filter_congr
    intro e _
    simp only [List.mem_cons, not_or, ne_eq, Bool.decide_and, Bool.and_comm]

theorem entries_delete_all {β : Type} (m : GoMap β) :
    (m.keys.foldl (fun (r : GoMap β) node => r.delete node) m).entries = [] := by
  rw [entries_foldl_delete, List.filter_eq_nil_iff]
  intro e he
  have : e.1 ∈ m.keys := List.mem_map_of_mem Prod.fst he
  simpa using this

/-- The result of `HandleRemove` on a two-argument command, branch by branch. -/
theorem Cache.HandleRemove_eq (net : Net) (c : Cache) (addr : String) :
    c.HandleRemove net ["REMOVE", addr] = some (Status.RequestFinish, "+OK\r\n",
      if addr = c.Config.Address then
        { c with RouteTable :=
            c.RouteTable.keys.foldl (fun (r : GoMap Bool) node => r.delete node) c.RouteTable }
      else if (c.RouteTable.get? addr).isSome = true then
        { c with RouteTable := c.RouteTable.delete addr }
      else c) := by
  have hargs : (["REMOVE", addr] : List String)[1]? = some addr := rfl
  simp only [Cache.HandleRemove, hargs]
  by_cases h1 : addr = c.Config.Address
  · simp [h1]
  · cases h2 : c.RouteTable.get? addr with
    | none => simp [h1]
    | some b => simp [h1]

/-- C11. REMOVE effect: for every membership table `M`, every address and every
outcome of the broadcast, `HandleRemove(["REMOVE", addr])` returns
`(RequestFinish, "+OK\r\n")` and leaves the table (a) without any entry when `addr` is
the local address, (b) without `addr`, one entry shorter and with every other peer
and flag as in `M`, when `addr` is another address that is a key of `M`, (c) equal to
`M` when `addr` is neither the local address nor a key of `M`; the shards, the
configuration and the ring are as before in all three cases. -/
theorem C11_remove_effect (net : Net) (c : Cache) (addr : String) :
    ∃ c' : Cache,
      c.HandleRemove net ["REMOVE", addr] = some (Status.RequestFinish, "+OK\r\n", c') ∧
      (addr = c.Config.Address →
        c'.RouteTable.entries = [] ∧ ∀ p : String, c'.RouteTable.get? p = none) ∧
      (addr ≠ c.Config.Address → (c.RouteTable.get? addr).isSome = true →
        c'.RouteTable.get? addr = none ∧
        c'.RouteTable.len + 1 = c.RouteTable.len ∧
        (∀ p : String, p ≠ addr → c'.RouteTable.get? p = c.RouteTable.get? p)) ∧
      (addr ≠ c.Config.Address → c.RouteTable.get? addr = none →
        c'.RouteTable = c.RouteTable) ∧
      c'.shards = c.shards ∧ c'.Config = c.Config ∧ c'.consistency = c.consistency := by
  refine ⟨_, Cache.HandleRemove_eq net c addr, ?_, ?_, ?_, ?_⟩
  · intro h
    rw [if_pos h]
    have he := entries_delete_all c.RouteTable
    refine ⟨he, ?_⟩
    intro p
    show lookupEntries _ p = none
    rw [he]
    rfl
  · intro h hin
    rw [if_neg h, if_pos hin]
    refine ⟨?_, ?_, ?_⟩
    · simp [GoMap.get?_delete]
    · apply length_deleteEntries_of_mem _ _ c.RouteTable.nodup
      by_contra hnot
      have := (lookupEntries_eq_none _ _).mpr hnot
      unfold GoMap.get? at hin
      rw [this] at hin
      exact Bool.noConfusion hin
    · intro p hp
      simp [GoMap.get?_delete, hp]
  · intro h hout
    rw [if_neg h, if_neg (by simp [hout])]
  · by_cases h : addr = c.Config.Address
    · rw [if_pos h]
      exact ⟨rfl, rfl, rfl⟩
    · rw [if_neg h]
      by_cases h2 : (c.RouteTable.get? addr).isSome = true
      · rw [if_pos h2]
        exact ⟨rfl, rfl, rfl⟩
      · rw [if_neg h2]
        exact ⟨rfl, rfl, rfl⟩

/-- Witness of C11: removing the peer of the two-node cache, then an address that is
not in the table, then the local address. -/
theorem C11_witness :
    (∃ c' : Cache, sampleTwo.HandleRemove netUp ["REMOVE", "127.0.0.1:6001"]
        = some (Status.RequestFinish, "+OK\r\n", c') ∧
      c'.RouteTable.get? "127.0.0.1:6001" = none ∧ c'.RouteTable.len + 1 = 1) ∧
    (∃ c' : Cache, sampleTwo.HandleRemove netUp ["REMOVE", "127.0.0.1:6002"]
        = some (Status.RequestFinish, "+OK\r\n", c') ∧
      c'.RouteTable = sampleTwo.RouteTable) ∧
    (∃ c' : Cache, sampleTwo.HandleRemove netDown ["REMOVE", "127.0.0.1:6000"]
        = some (Status.RequestFinish, "+OK\r\n", c') ∧ c'.RouteTable.entries = []) := by
  refine ⟨?_, ?_, ?_⟩
  · obtain ⟨c', h, -, hb, -⟩ := C11_remove_effect netUp sampleTwo "127.0.0.1:6001"
    obtain ⟨h1, h2, -⟩ := hb (by decide) (by decide)
    exact ⟨c', h, h1, h2⟩
  · obtain ⟨c', h, -, -, hc, -⟩ := C11_remove_effect netUp sampleTwo "127.0.0.1:6002"
    exact ⟨c', h, hc (by decide) (by decide)⟩
  · obtain ⟨c', h, ha, -⟩ := C11_remove_effect netDown sampleTwo "127.0.0.1:6000"
    exact ⟨c', h, (ha (by decide)).1⟩

/-! ## What a command leaves alone -/

theorem Cache.HandleSet_frame (intSize : Nat) (c : Cache) (args : List String)
    (st : Status) (r : String) (c' : Cache)
    (h : c.HandleSet intSize args = some (st, r, c')) :
    c'.Config = c.Config ∧ c'.consistency = c.consistency ∧ c'.RouteTable = c.RouteTable := by
  unfold Cache.HandleSet at h
  repeat' split at h
  all_goals first
    | exact Option.noConfusion h
    | (simp only [Option.some.injEq, Prod.mk.injEq] at h
       obtain ⟨-, -, rfl⟩ := h
       exact ⟨rfl, rfl, rfl⟩)

theorem Cache.HandleGet_frame (intSize : Nat) (c : Cache) (args : List String)
    (st : Status) (r : String) (c' : Cache)
    (h : c.HandleGet intSize args = some (st, r, c')) : c' = c := by
  unfold Cache.HandleGet at h
  repeat' split at h
  all_goals first
    | exact Option.noConfusion h
    | (simp only [Option.some.injEq, Prod.mk.injEq] at h
       exact h.2.2.symm)

theorem Cache.HandleJoin_frame (net : Net) (c : Cache) (args : List String)
    (st : Status) (r : String) (c' : Cache)
    (h : c.HandleJoin net args = some (st, r, c')) :
    c'.Config = c.Config ∧ c'.consistency = c.consistency ∧ c'.shards = c.shards ∧
    (∀ p : String, p ∈ c'.RouteTable.keys → p ∈ c.RouteTable.keys ∨ p ≠ c.Config.Address) := by
  unfold Cache.HandleJoin at h
  repeat' split at h
  all_goals first
    | exact Option.noConfusion h
    | (simp only [Option.some.injEq, Prod.mk.injEq] at h
       obtain ⟨-, -, rfl⟩ := h
       refine ⟨rfl, rfl, rfl, ?_⟩
       intro p hp
       first
         | exact Or.inl hp
         | (rcases (mem_keys_setEntries _ _ _ _).mp hp with hh | hh
            · subst hh
              exact Or.inr (by assumption)
            · exact Or.inl hh))

theorem mem_keys_foldl_delete {β : Type} (ks : List String) (m : GoMap β) (p : String)
    (hp : p ∈ (ks.foldl (fun (r : GoMap β) node => r.delete node) m).keys) : p ∈ m.keys := by
  unfold GoMap.keys at hp ⊢
  rw [entries_foldl_delete] at hp
  obtain ⟨e, he, rfl⟩ := List.mem_map.mp hp
  exact List.mem_map_of_mem Prod.fst (List.mem_filter.mp he).1

theorem Cache.HandleRemove_frame (net : Net) (c : Cache) (args : List String)
    (st : Status) (r : String) (c' : Cache)
    (h : c.HandleRemove net args = some (st, r, c')) :
    c'.Config = c.Config ∧ c'.consistency = c.consistency ∧ c'.shards = c.shards ∧
    (∀ p : String, p ∈ c'.RouteTable.keys → p ∈ c.RouteTable.keys) := by
  unfold Cache.HandleRemove at h
  repeat' split at h
  all_goals first
    | exact Option.noConfusion h
    | (simp only [Option.some.injEq, Prod.mk.injEq] at h
       obtain ⟨-, -, rfl⟩ := h
       refine ⟨rfl, rfl, rfl, ?_⟩
       intro p hp
       first
         | exact hp
         | exact mem_keys_foldl_delete _ _ p hp
         | exact ((mem_keys_deleteEntries _ _ _).mp hp).2)

/-- Every command leaves the configuration and the ring as they were, and adds no
key to the membership table other than a key different from the local address. -/
theorem Cache.HandleCommand_frame (intSize : Nat) (net : Net) (c : Cache) (data : CommandData)
    (st : Status) (r : String) (c' : Cache)
    (h : Cache.HandleCommand intSize net c data = some (st, r, c')) :
    c'.Config = c.Config ∧ c'.consistency = c.consistency ∧
    (∀ p : String, p ∈ c'.RouteTable.keys → p ∈ c.RouteTable.keys ∨ p ≠ c.Config.Address) := by
  unfold Cache.HandleCommand at h
  split at h
  · exact Option.noConfusion h
  · simp only [] at h
    split at h
    · simp only [Option.some.injEq, Prod.mk.injEq] at h
      obtain ⟨-, -, rfl⟩ := h
      exact ⟨rfl, rfl, fun p hp => Or.inl hp⟩
    · split at h
      · obtain ⟨h1, h2, h3⟩ := Cache.HandleSet_frame _ _ _ _ _ _ h
        exact ⟨h1, h2, fun p hp => Or.inl (h3 ▸ hp)⟩
      · split at h
        · have := Cache.HandleGet_frame _ _ _ _ _ _ h
          subst this
          exact ⟨rfl, rfl, fun p hp => Or.inl hp⟩
        · split at h
          · simp only [Cache.HandlePing, Option.some.injEq, Prod.mk.injEq] at h
            obtain ⟨-, -, rfl⟩ := h
            exact ⟨rfl, rfl, fun p hp => Or.inl hp⟩
          · split at h
            · simp only [Cache.HandleInfo, Option.some.injEq, Prod.mk.injEq] at h
              obtain ⟨-, -, rfl⟩ := h
              exact ⟨rfl, rfl, fun p hp => Or.inl hp⟩
            · split at h
              · obtain ⟨h1, h2, -, h4⟩ := Cache.HandleJoin_frame _ _ _ _ _ _ h
                exact ⟨h1, h2, h4⟩
              · split at h
                · obtain ⟨h1, h2, -, h4⟩ := Cache.HandleRemove_frame _ _ _ _ _ _ h
                  exact ⟨h1, h2, fun p hp => Or.inl (h4 p hp)⟩
                · simp only [Option.some.injEq, Prod.mk.injEq] at h
                  obtain ⟨-, -, rfl⟩ := h
                  exact ⟨rfl, rfl, fun p hp => Or.inl hp⟩

theorem runCommands_frame (intSize : Nat) (cmds : List (Net × CommandData)) (c c' : Cache)
    (h : runCommands intSize c cmds = some c') :
    c'.Config = c.Config ∧ c'.consistency = c.consistency ∧
    (∀ p : String, p ∈ c'.RouteTable.keys → p ∈ c.RouteTable.keys ∨ p ≠ c.Config.Address) := by
  induction cmds generalizing c with
  | nil =>
    simp only [runCommands, Option.some.injEq] at h
    subst h
    exact ⟨rfl, rfl, fun p hp => Or.inl hp⟩
  | cons cmd rest ih =>
    obtain ⟨net, data⟩ := cmd
    unfold runCommands at h
    split at h
    · exact Option.noConfusion h
    · rename_i st r c1 hc
      obtain ⟨h1, h2, h3⟩ := Cache.HandleCommand_frame _ _ _ _ _ _ _ hc
      obtain ⟨g1, g2, g3⟩ := ih c1 h
      refine ⟨g1.trans h1, g2.trans h2, ?_⟩
      intro p hp
      rcases g3 p hp with hh | hh
      · exact h3 p hh
      · exact Or.inr (h1 ▸ hh)

/-! ## Routing and membership over a run of commands -/

theorem Consistent.SetKey_mem_nodes (ring : Consistent) (key : String)
    (h : ring.circle ≠ []) : ring.SetKey key ∈ ring.nodes := by
  unfold Consistent.SetKey Consistent.nodes
  split
  · rename_i t ht
    exact List.mem_map_of_mem Prod.snd (List.mem_of_find?_eq_some ht)
  · split
    · rename_i t ht
      exact List.mem_map_of_mem Prod.snd (List.mem_of_mem_head? ht)
    · rename_i hnone
      exact absurd (List.head?_eq_none_iff.mp hnone) h

theorem mem_keys_foldl_set (peers : List String) (m : GoMap Bool) (p : String) :
    p ∈ (peers.foldl (fun (r : GoMap Bool) node => r.set node false) m).keys
      ↔ p ∈ peers ∨ p ∈ m.keys := by
  induction peers generalizing m with
  | nil => simp
  | cons a t ih =>
    rw [List.foldl_cons, ih]
    have : p ∈ (m.set a false).keys ↔ p = a ∨ p ∈ m.keys := mem_keys_setEntries _ _ _ _
    rw [this, List.mem_cons]
    tauto

theorem GoMap.get?_eq_none_iff {β : Type} (m : GoMap β) (k : String) :
    m.get? k = none ↔ k ∉ m.keys :=
  lookupEntries_eq_none m.entries k

/-- C12, the claim refuted: the two-node cache has a ring that holds exactly its peer
and the local address. After `REMOVE 127.0.0.1:6001` through `HandleCommand` the
membership table is empty, yet `CheckKey` still sends the key `quux` to
`127.0.0.1:6001`. -/
theorem C12_counterexample :
    sampleTwo.consistency.nodes = ["127.0.0.1:6000", "127.0.0.1:6001"] ∧
    sampleTwo.Config.Address = "127.0.0.1:6000" ∧
    sampleTwo.RouteTable.keys = ["127.0.0.1:6001"] ∧
    (runCommands 64 sampleTwo [(netUp, ⟨["REMOVE", "127.0.0.1:6001"]⟩)]).map
        (fun c => (c.RouteTable.keys, c.CheckKey "quux"))
      = some ([], (false, "127.0.0.1:6001")) := by
  refine ⟨by decide, by decide, by decide, by decide⟩

/-- C12, amended. Starting from a cache whose ring holds exactly the initial peers
and the local address, in every state reached by a run of commands through
`HandleCommand` (JOIN and REMOVE among them) `CheckKey` gives every key the answer of
the starting state: the owner is the local address or a key of the initial
membership table, whether or not it is a key of the current one. -/
theorem C12_routing_follows_initial_ring (intSize : Nat) (c c' : Cache)
    (cmds : List (Net × CommandData))
    (hring : ∀ n : String,
      n ∈ c.consistency.nodes ↔ n = c.Config.Address ∨ n ∈ c.RouteTable.keys)
    (hrun : runCommands intSize c cmds = some c') :
    ∀ K : String,
      c'.CheckKey K = c.CheckKey K ∧
      (c'.consistency.SetKey K = c'.Config.Address ∨
        c'.consistency.SetKey K ∈ c.RouteTable.keys) := by
  obtain ⟨h1, h2, -⟩ := runCommands_frame intSize cmds c c' hrun
  intro K
  refine ⟨?_, ?_⟩
  · unfold Cache.CheckKey
    rw [h1, h2]
  · rw [h1, h2]
    have hne : c.consistency.circle ≠ [] := by
      intro hnil
      have hmem : c.Config.Address ∈ c.consistency.nodes := (hring _).mpr (Or.inl rfl)
      unfold Consistent.nodes at hmem
      rw [hnil] at hmem
      simp at hmem
    exact (hring _).mp (Consistent.SetKey_mem_nodes c.consistency K hne)

/-- Witness of C12, amended: the two-node cache after `REMOVE 127.0.0.1:6001`. -/
theorem C12_witness :
    ∃ c' : Cache,
      runCommands 64 sampleTwo [(netUp, ⟨["REMOVE", "127.0.0.1:6001"]⟩)] = some c' ∧
      ∀ K : String,
        c'.CheckKey K = sampleTwo.CheckKey K ∧
        (c'.consistency.SetKey K = c'.Config.Address ∨
          c'.consistency.SetKey K ∈ sampleTwo.RouteTable.keys) := by
  have hring : ∀ n : String, n ∈ sampleTwo.consistency.nodes
      ↔ n = sampleTwo.Config.Address ∨ n ∈ sampleTwo.RouteTable.keys := by
    intro n
    have h1 : sampleTwo.consistency.nodes = ["127.0.0.1:6000", "127.0.0.1:6001"] := by decide
    have h2 : sampleTwo.RouteTable.keys = ["127.0.0.1:6001"] := by decide
    have h3 : sampleTwo.Config.Address = "127.0.0.1:6000" := rfl
    rw [h1, h2, h3]
    simp
  have hsome : (runCommands 64 sampleTwo [(netUp, ⟨["REMOVE", "127.0.0.1:6001"]⟩)]).isSome
      = true := by decide
  obtain ⟨c', hc'⟩ := Option.isSome_iff_exists.mp hsome
  exact ⟨c', hc', C12_routing_follows_initial_ring 64 sampleTwo c' _ hring hc'⟩

/-- C13, the claim refuted: `NewCache` on a configuration that lists the local
address among its remote peers builds a membership table in which the local address
is a key. -/
theorem C13_counterexample :
    (NewCache sampleConfigSelf sampleRing).map
        (fun c => (c.Config.Address, c.RouteTable.entries))
      = some ("127.0.0.1:6000", [("127.0.0.1:6000", false), ("127.0.0.1:6001", false)]) := by
  decide

/-- C13, amended. For a configuration whose remote peers do not include its own
address (and whose shard count is not negative) `NewCache` builds a state in which
`Config.Address` is not a key of `RouteTable`, and that stays so in every state
reached from it by a run of commands through `HandleCommand`. -/
theorem C13_local_not_in_table (config : Config) (ring : Consistent)
    (hself : config.Address ∉ config.RemotePeers) (hshards : 0 ≤ config.Shards) :
    ∃ c : Cache, NewCache config ring = some c ∧
      c.RouteTable.get? c.Config.Address = none ∧
      (∀ (intSize : Nat) (cmds : List (Net × CommandData)) (c' : Cache),
        runCommands intSize c cmds = some c' →
        c'.RouteTable.get? c'.Config.Address = none) := by
  have hnew : NewCache config ring = some
      { shards := List.replicate config.Shards.toNat GoMap.empty
        Config := config
        consistency := ring
        RouteTable := config.RemotePeers.foldl
          (fun (r : GoMap Bool) node => r.set node false) GoMap.empty } := by
    unfold NewCache
    simp only []
    rw [if_neg (by omega)]
  have hinit : config.Address ∉ (config.RemotePeers.foldl
      (fun (r : GoMap Bool) node => r.set node false) GoMap.empty).keys := by
    rw [mem_keys_foldl_set]
    rintro (h | h)
    · exact hself h
    · simp [GoMap.keys, GoMap.empty] at h
  refine ⟨_, hnew, (GoMap.get?_eq_none_iff _ _).mpr hinit, ?_⟩
  intro intSize cmds c' hrun
  obtain ⟨h1, -, h3⟩ := runCommands_frame intSize cmds _ c' hrun
  rw [GoMap.get?_eq_none_iff, h1]
  intro hmem
  rcases h3 _ hmem with hh | hh
  · exact hinit hh
  · exact hh rfl

/-- Witness of C13, amended: the configuration of the two-node cluster. -/
theorem C13_witness :
    ∃ c : Cache, NewCache sampleTwo.Config sampleRing = some c ∧
      c.RouteTable.get? c.Config.Address = none ∧
      (∀ (intSize : Nat) (cmds : List (Net × CommandData)) (c' : Cache),
        runCommands intSize c cmds = some c' →
        c'.RouteTable.get? c'.Config.Address = none) :=
  C13_local_not_in_table sampleTwo.Config sampleRing (by decide) (by decide)

/-! ## The shard index -/

/-- C14 at a failing input: a cache built by `NewCache` with four shards, a key whose
32-bit hash is `0x8C736521`, and a 32-bit `int`. `HashKey(K) mod S` is 1, but
`hashShard` computes `int(hash) % 4 = -3`, the index is out of range, and `HandleSet`
and `HandleGet` panic. With a 64-bit `int` the same key gives the index 1. -/
theorem C14_failing_input :
    (NewCache sampleSingle.Config sampleRingHigh).map (fun c => c.shards.length) = some 4 ∧
    sampleRingHigh.HashKey "foo" % 4 = 1 ∧
    (NewCache sampleSingle.Config sampleRingHigh).bind (fun c => c.hashShard 32 "foo")
      = some (-3) ∧
    ((NewCache sampleSingle.Config sampleRingHigh).bind
      (fun c => c.HandleSet 32 ["SET", "foo", "bar"])).isNone = true ∧
    ((NewCache sampleSingle.Config sampleRingHigh).bind
      (fun c => c.HandleGet 32 ["GET", "foo"])).isNone = true ∧
    (NewCache sampleSingle.Config sampleRingHigh).bind (fun c => c.hashShard 64 "foo")
      = some 1 := by
  refine ⟨by decide, by decide, by decide, by decide, by decide, by decide⟩

/-! ## The forwarder -/

/-- C16. Forwarder result: with resolve, dial, write and read each succeeding or
failing, `resendRequest` returns exactly `"-Can not connect to destination Node\r\n"`
as soon as one of the four steps fails, having performed the steps up to the failing
one and no other, each once; when all four succeed it returns exactly the text that
the single read delivered. -/
theorem C16_forwarder_result (fnet : ForwardNet) (request addr : String) :
    (fnet.resolve addr = false →
      resendRequestRun fnet request addr
        = ("-Can not connect to destination Node\r\n", [ForwardStep.resolve])) ∧
    (fnet.resolve addr = true → fnet.dial addr = false →
      resendRequestRun fnet request addr
        = ("-Can not connect to destination Node\r\n",
            [ForwardStep.resolve, ForwardStep.dial])) ∧
    (fnet.resolve addr = true → fnet.dial addr = true → fnet.write addr request = false →
      resendRequestRun fnet request addr
        = ("-Can not connect to destination Node\r\n",
            [ForwardStep.resolve, ForwardStep.dial, ForwardStep.write])) ∧
    (fnet.resolve addr = true → fnet.dial addr = true → fnet.write addr request = true →
      fnet.read addr = none →
      resendRequestRun fnet request addr
        = ("-Can not connect to destination Node\r\n",
            [ForwardStep.resolve, ForwardStep.dial, ForwardStep.write, ForwardStep.read])) ∧
    (∀ reply : String,
      fnet.resolve addr = true → fnet.dial addr = true → fnet.write addr request = true →
      fnet.read addr = some reply →
      resendRequestRun fnet request addr
        = (reply, [ForwardStep.resolve, ForwardStep.dial, ForwardStep.write,
            ForwardStep.read])) ∧
    resendRequest fnet request addr = (resendRequestRun fnet request addr).1 := by
  refine ⟨?_, ?_, ?_, ?_, ?_, rfl⟩
  · intro h1
    simp [resendRequestRun, h1, forwardFailure]
  · intro h1 h2
    simp [resendRequestRun, h1, h2, forwardFailure]
  · intro h1 h2 h3
    simp [resendRequestRun, h1, h2, h3, forwardFailure]
  · intro h1 h2 h3 h4
    simp [resendRequestRun, h1, h2, h3, h4, forwardFailure]
  · intro reply h1 h2 h3 h4
    simp [resendRequestRun, h1, h2, h3, h4]

/-- Witness of C16: a network on which every step succeeds, and one on which the
write fails. -/
theorem C16_witness :
    resendRequestRun forwardUp sampleGetRequest "127.0.0.1:6001"
      = ("+OK\r\n", [ForwardStep.resolve, ForwardStep.dial, ForwardStep.write,
          ForwardStep.read]) ∧
    resendRequestRun { forwardUp with write := fun _ _ => false } sampleGetRequest
        "127.0.0.1:6001"
      = ("-Can not connect to destination Node\r\n",
          [ForwardStep.resolve, ForwardStep.dial, ForwardStep.write]) :=
  ⟨(C16_forwarder_result forwardUp sampleGetRequest "127.0.0.1:6001").2.2.2.2.1 "+OK\r\n"
      rfl rfl rfl rfl,
   (C16_forwarder_result { forwardUp with write := fun _ _ => false } sampleGetRequest
      "127.0.0.1:6001").2.2.1 rfl rfl rfl⟩

/-! ## The start-up barrier -/

theorem clusterLoop_eq_true (l : List (String × Bool)) :
    clusterLoop l = true ↔ ∀ e ∈ l, e.2 = true := by
  induction l with
  | nil => simp [clusterLoop]
  | cons e t ih =>
    unfold clusterLoop
    by_cases he : e.2 = false
    · rw [if_pos he]
      simp [he]
    · rw [if_neg he, ih]
      have he' : e.2 = true := by simpa using he
      simp [he']

theorem lookupEntries_of_mem {β : Type} (l : List (String × β)) (p : String) (v : β)
    (hn : (l.map Prod.fst).Nodup) (h : (p, v) ∈ l) : lookupEntries l p = some v := by
  induction l with
  | nil => simp at h
  | cons e t ih =>
    rw [List.map_cons, List.nodup_cons] at hn
    unfold lookupEntries
    rcases List.mem_cons.mp h with hh | hh
    · subst hh
      simp
    · have hne : e.1 ≠ p := by
        intro heq
        exact hn.1 (heq ▸ List.mem_map_of_mem Prod.fst hh)
      rw [if_neg hne]
      exact ih hn.2 hh

theorem mem_entries_get? {β : Type} (m : GoMap β) (p : String) (v : β)
    (h : (p, v) ∈ m.entries) : m.get? p = some v :=
  lookupEntries_of_mem m.entries p v m.nodup h

theorem waitForCluster_some (sendHeartbeat : Cache → Cache) (fuel : Nat) (c c' : Cache)
    (h : waitForCluster sendHeartbeat fuel c = some c') :
    ClusterConnected c' = true ∧ ∃ k, k ≤ fuel ∧ c' = sendHeartbeat^[k] c := by
  induction fuel generalizing c with
  | zero =>
    unfold waitForCluster at h
    split at h
    · rename_i hc
      cases h
      exact ⟨hc, 0, le_refl _, rfl⟩
    · exact Option.noConfusion h
  | succ n ih =>
    unfold waitForCluster at h
    split at h
    · rename_i hc
      cases h
      exact ⟨hc, 0, Nat.zero_le _, rfl⟩
    · obtain ⟨h1, k, hk, hc'⟩ := ih _ h
      exact ⟨h1, k + 1, Nat.succ_le_succ hk, by rw [hc', Function.iterate_succ_apply]⟩

theorem waitForCluster_returns (sendHeartbeat : Cache → Cache) (k : Nat) (c : Cache)
    (h : ClusterConnected (sendHeartbeat^[k] c) = true) :
    ∃ c', waitForCluster sendHeartbeat k c = some c' := by
  induction k generalizing c with
  | zero =>
    refine ⟨c, ?_⟩
    unfold waitForCluster
    rw [if_pos (by simpa using h)]
  | succ n ih =>
    unfold waitForCluster
    by_cases hc : ClusterConnected c = true
    · exact ⟨c, by rw [if_pos hc]⟩
    · rw [if_neg hc]
      exact ih _ (by rwa [Function.iterate_succ_apply] at h)

/-- C18. Start-up barrier predicate: for every membership table, `ClusterConnected`
returns true if and only if every peer of the table has the flag Up (so it is true for
the empty table); it is a function of the state and returns only the boolean. Hence
the waiting loop of `StartServer`, whatever `sendHeartbeat` does, hands over to the
accept loop only a state in which every peer of the table is Up, and it does hand
over as soon as some number of heartbeats leads to such a state. -/
theorem C18_cluster_connected (c : Cache) (sendHeartbeat : Cache → Cache) :
    (ClusterConnected c = true
      ↔ ∀ (p : String) (up : Bool), c.RouteTable.get? p = some up → up = true) ∧
    (c.RouteTable.entries = [] → ClusterConnected c = true) ∧
    (∀ (fuel : Nat) (c' : Cache), waitForCluster sendHeartbeat fuel c = some c' →
      ClusterConnected c' = true ∧
      ∀ (p : String) (up : Bool), c'.RouteTable.get? p = some up → up = true) ∧
    (∀ k : Nat, ClusterConnected (sendHeartbeat^[k] c) = true →
      ∃ c', waitForCluster sendHeartbeat k c = some c') := by
  have hiff : ∀ d : Cache, ClusterConnected d = true
      ↔ ∀ (p : String) (up : Bool), d.RouteTable.get? p = some up → up = true := by
    intro d
    unfold ClusterConnected
    rw [clusterLoop_eq_true]
    constructor
    · intro h p up hp
      exact h (p, up) (mem_of_lookupEntries _ _ _ hp)
    · intro h e he
      exact h e.1 e.2 (mem_entries_get? _ _ _ he)
  refine ⟨hiff c, ?_, ?_, ?_⟩
  · intro hnil
    unfold ClusterConnected
    rw [hnil]
    rfl
  · intro fuel c' hw
    have := (waitForCluster_some sendHeartbeat fuel c c' hw).1
    exact ⟨this, (hiff c').mp this⟩
  · intro k hk
    exact waitForCluster_returns sendHeartbeat k c hk

/-- Witness of C18: the two-node cache, whose only peer is Up, passes the barrier at
once; the single-node cache has an empty table. -/
theorem C18_witness :
    ClusterConnected sampleSingle = true ∧
    (∃ c', waitForCluster id 0 sampleTwo = some c') := by
  have h1 := C18_cluster_connected sampleSingle id
  have h2 := C18_cluster_connected sampleTwo id
  exact ⟨h1.2.1 rfl, h2.2.2.2 0 (by decide)⟩

/-! ## The connection handler and its buffer -/

theorem splitCRLF_noLF (z acc : List Char) (h : ∀ c ∈ z, c ≠ '\n') :
    splitCRLF z acc = [(z.reverse ++ acc).reverse] := by
  induction z generalizing acc with
  | nil => simp [splitCRLF]
  | cons c t ih =>
    have hc : c ≠ '\n' := h c (List.mem_cons_self _ _)
    unfold splitCRLF
    rw [if_neg (fun hh => hc hh.1), ih _ (fun x hx => h x (List.mem_cons_of_mem _ hx))]
    simp

/-- The sample parser reads `GET quux` whatever bytes without a line feed follow. -/
theorem sampleParser_padded (z : List Char) (h : ∀ c ∈ z, c ≠ '\n') :
    sampleParser (String.mk (sampleGetRequest.data ++ z)) = { Args := ["GET", "quux"] } := by
  have hd : sampleGetRequest.data
      = ['*', '2', '\r', '\n', '$', '3', '\r', '\n', 'G', 'E', 'T', '\r', '\n',
         '$', '4', '\r', '\n', 'q', 'u', 'u', 'x', '\r', '\n'] := by decide
  rw [hd]
  simp +decide [sampleParser, splitCRLF, splitCRLF_noLF z [] h, digitsValue, List.range,
    List.range.loop]

theorem readInto_newBuffer (bytes : String) (h : bytes.data.length ≤ receiveBufferSize) :
    readInto newBuffer bytes
      = String.mk (bytes.data ++ List.replicate (receiveBufferSize - bytes.data.length)
          (Char.ofNat 0)) := by
  unfold readInto newBuffer
  simp only [List.length_replicate]
  rw [List.take_of_length_le h, List.drop_replicate]

theorem sampleParser_buffer :
    sampleParser (readInto newBuffer sampleGetRequest) = { Args := ["GET", "quux"] } := by
  rw [readInto_newBuffer _ (by decide)]
  apply sampleParser_padded
  intro c hc
  rw [List.eq_of_mem_replicate hc]
  decide

theorem length_readInto_newBuffer (bytes : String)
    (h : bytes.data.length ≤ receiveBufferSize) :
    (readInto newBuffer bytes).length = receiveBufferSize := by
  rw [readInto_newBuffer bytes h]
  simp only [String.length, List.length_append, List.length_replicate]
  omega

theorem Cache.HandleGet_remote (intSize : Nat) (c : Cache) (args : List String) (K : String)
    (h1 : args[1]? = some K) (hne : c.consistency.SetKey K ≠ c.Config.Address) :
    c.HandleGet intSize args = some (Status.ProtocolOtherNode, c.consistency.SetKey K, c) := by
  simp only [Cache.HandleGet, h1, Cache.CheckKey_remote c K hne]

theorem dispatchRequest_forward (intSize : Nat) (Parser : String → CommandData) (net : Net)
    (fnet : ForwardNet) (s : Session) (addr : String) (c' : Cache)
    (h : Cache.HandleCommand intSize net s.cache (Parser s.request)
      = some (Status.ProtocolOtherNode, addr, c')) :
    dispatchRequest intSize Parser net fnet s = StepOutcome.next
      { request := s.request
        cache := c'
        written := s.written ++ [resendRequest fnet s.request addr]
        forwarded := s.forwarded ++ [(s.request, addr)] } := by
  simp [dispatchRequest, h, connectionReply]

theorem sampleTwo_get_quux (request : String)
    (h : sampleParser request = { Args := ["GET", "quux"] }) :
    Cache.HandleCommand 64 netDown sampleTwo (sampleParser request)
      = some (Status.ProtocolOtherNode, "127.0.0.1:6001", sampleTwo) := by
  rw [h, Cache.HandleCommand_get 64 netDown sampleTwo ["GET", "quux"] "GET" rfl (by decide),
    Cache.HandleGet_remote 64 sampleTwo ["GET", "quux"] "quux" rfl (by decide)]
  rfl

/-- C15 at a failing input: the first request on a connection to the two-node cache is
the 23 bytes of `GET quux`, a key of the peer. `handleConnection` hands to
`resendRequest` the text of the whole receive buffer: 4096 bytes, the request followed
by the zero bytes that `make` put there, not the 23 bytes that were read. -/
theorem C15_failing_input :
    sampleGetRequest.length = 23 ∧
    (∃ s' : Session,
      handleConnectionStep 64 sampleParser netDown forwardUp sessionStart
          (ReadResult.data sampleGetRequest) = StepOutcome.next s' ∧
      s'.forwarded = [(readInto newBuffer sampleGetRequest, "127.0.0.1:6001")]) ∧
    (readInto newBuffer sampleGetRequest).length = 4096 ∧
    readInto newBuffer sampleGetRequest
      = String.mk (sampleGetRequest.data ++ List.replicate 4073 (Char.ofNat 0)) ∧
    readInto newBuffer sampleGetRequest ≠ sampleGetRequest := by
  have hlen : (readInto newBuffer sampleGetRequest).length = 4096 :=
    length_readInto_newBuffer sampleGetRequest (by decide)
  refine ⟨by decide, ?_, hlen, ?_, ?_⟩
  · refine ⟨Session.mk (readInto newBuffer sampleGetRequest) sampleTwo
      [resendRequest forwardUp (readInto newBuffer sampleGetRequest) "127.0.0.1:6001"]
      [(readInto newBuffer sampleGetRequest, "127.0.0.1:6001")], ?_, rfl⟩
    exact dispatchRequest_forward 64 sampleParser netDown forwardUp
      (Session.mk (readInto newBuffer sampleGetRequest) sampleTwo [] []) "127.0.0.1:6001"
      sampleTwo (sampleTwo_get_quux (readInto newBuffer sampleGetRequest) sampleParser_buffer)
  · rw [readInto_newBuffer _ (by decide)]
    rfl
  · intro h
    rw [h] at hlen
    revert hlen
    decide

/-- C17 at a failing input. After any read error other than `io.EOF` a turn of
`handleConnection` is the dispatch of whatever the buffer holds; it is not the end of
the handler. On the session that has just forwarded `GET quux`, a failed read makes
the handler parse the buffer again, forward the request to the peer a second time,
write a second reply and go on with the loop, whereas `io.EOF` ends the handler with
the session as it was. -/
theorem C17_failing_input :
    (∀ (intSize : Nat) (Parser : String → CommandData) (net : Net) (fnet : ForwardNet)
        (s : Session),
      handleConnectionStep intSize Parser net fnet s ReadResult.failure
        = dispatchRequest intSize Parser net fnet s) ∧
    (∃ s' : Session,
      handleConnectionStep 64 sampleParser netDown forwardUp sessionAfterGet
          ReadResult.failure = StepOutcome.next s' ∧
      s'.forwarded = [(readInto newBuffer sampleGetRequest, "127.0.0.1:6001"),
        (readInto newBuffer sampleGetRequest, "127.0.0.1:6001")] ∧
      s'.written = ["+OK\r\n", "+OK\r\n"]) ∧
    handleConnectionStep 64 sampleParser netDown forwardUp sessionAfterGet ReadResult.eof
      = StepOutcome.closed sessionAfterGet := by
  refine ⟨fun _ _ _ _ _ => rfl, ?_, rfl⟩
  refine ⟨Session.mk (readInto newBuffer sampleGetRequest) sampleTwo
    ["+OK\r\n", resendRequest forwardUp (readInto newBuffer sampleGetRequest) "127.0.0.1:6001"]
    [(readInto newBuffer sampleGetRequest, "127.0.0.1:6001"),
      (readInto newBuffer sampleGetRequest, "127.0.0.1:6001")], ?_, rfl, rfl⟩
  exact dispatchRequest_forward 64 sampleParser netDown forwardUp sessionAfterGet
    "127.0.0.1:6001" sampleTwo
    (sampleTwo_get_quux (readInto newBuffer sampleGetRequest) sampleParser_buffer)

/-! ## The letter case of the verb -/

theorem upperRune_asciiUpper (c : Char) : upperRune (asciiUpper c) = upperRune c := by
  by_cases h : 97 ≤ c.toNat ∧ c.toNat ≤ 122
  · obtain ⟨n, hn⟩ : ∃ n, c.toNat = n := ⟨_, rfl⟩
    rw [hn] at h
    have hc : c = Char.ofNat n := by rw [← hn, Char.ofNat_toNat]
    subst hc
    obtain ⟨h1, h2⟩ := h
    interval_cases n <;> decide
  · unfold asciiUpper
    rw [if_neg h]

theorem ToUpper_of_caseVariant (v w : String) (h : caseVariant v w) :
    ToUpper v = ToUpper w := by
  unfold caseVariant at h
  have hv : ∀ s : String, s.data.map upperRune = (s.data.map asciiUpper).map upperRune := by
    intro s
    rw [List.map_map]
    apply List.map_congr_left
    intro c _
    exact (upperRune_asciiUpper c).symm
  unfold ToUpper
  rw [hv v, hv w, h]

theorem Cache.HandleCommand_congr_verb (intSize : Nat) (net : Net) (c : Cache)
    (v v' : String) (rest : List String) (h : ToUpper v = ToUpper v') :
    Cache.HandleCommand intSize net c ⟨v :: rest⟩
      = Cache.HandleCommand intSize net c ⟨v' :: rest⟩ := by
  have h0 : (v :: rest)[0]? = some v := by simp
  have h0' : (v' :: rest)[0]? = some v' := by simp
  simp only [Cache.HandleCommand, h0, h0', h]
  rw [Cache.HandleSet_congr intSize c (v' :: rest) (v :: rest) (by simp) (by simp),
    Cache.HandleGet_congr intSize c (v' :: rest) (v :: rest) (by simp),
    Cache.HandleJoin_congr net c (v' :: rest) (v :: rest) (by simp),
    Cache.HandleRemove_congr net c (v' :: rest) (v :: rest) (by simp)]
  rfl

theorem Cache.HandleCommand_recognised (intSize : Nat) (net : Net) (c : Cache)
    (args : List String) (verb : String) (h0 : args[0]? = some verb)
    (hverb : ToUpper verb ∈ verbs) (st : Status) (r : String) (c' : Cache)
    (hres : Cache.HandleCommand intSize net c ⟨args⟩ = some (st, r, c')) :
    st ≠ Status.ProtocolNotSupport := by
  simp only [verbs, List.mem_cons, List.mem_singleton, List.not_mem_nil, or_false] at hverb
  rcases hverb with h | h | h | h | h | h
  · rw [Cache.HandleCommand_ping intSize net c args verb h0 h] at hres
    simp only [Cache.HandlePing, Option.some.injEq, Prod.mk.injEq] at hres
    rw [← hres.1]
    decide
  · rw [Cache.HandleCommand_set intSize net c args verb h0 h] at hres
    rcases Cache.HandleSet_status intSize c args st r c' hres with hst | hst <;>
      (rw [hst]; decide)
  · rw [Cache.HandleCommand_get intSize net c args verb h0 h] at hres
    rcases Cache.HandleGet_status intSize c args st r c' hres with hst | hst | hst <;>
      (rw [hst]; decide)
  · rw [Cache.HandleCommand_info intSize net c args verb h0 h] at hres
    simp only [Cache.HandleInfo, Option.some.injEq, Prod.mk.injEq] at hres
    rw [← hres.1]
    decide
  · rw [Cache.HandleCommand_join intSize net c args verb h0 h] at hres
    rw [Cache.HandleJoin_status net c args st r c' hres]
    decide
  · rw [Cache.HandleCommand_remove intSize net c args verb h0 h] at hres
    rw [Cache.HandleRemove_status net c args st r c' hres]
    decide

/-- C19, the claim refuted: `ınfo`, written with the dotless i (U+0131), and `ſet`,
written with the long s (U+017F), are letter-case variants of none of the six verbs,
yet `strings.ToUpper` turns them into `INFO` and `SET` and `HandleCommand` runs the
INFO and the SET handler. -/
theorem C19_counterexample :
    (∀ w ∈ verbs, ¬ caseVariant "ınfo" w) ∧
    (∀ w ∈ verbs, ¬ caseVariant "ſet" w) ∧
    (Cache.HandleCommand 64 netDown sampleTwo ⟨["ınfo"]⟩).map (fun o => (o.1, o.2.1))
      = some (Status.RequestFinish,
          "*2\r\n$15\r\nConnect status:\r\n$18\r\n127.0.0.1:6001: Up\r\n") ∧
    (Cache.HandleCommand 64 netDown sampleTwo ⟨["ſet", "foo", "bar"]⟩).map
        (fun o => (o.1, o.2.1, o.2.2.shards.map GoMap.entries))
      = some (Status.RequestFinish, "+OK\r\n", [[], [], [], [("foo", "bar")]]) := by
  refine ⟨by decide, by decide, by decide, by decide⟩

/-- C19, amended. The verb is case-insensitive: `HandleCommand` returns the same
status, reply and state when the verb at index 0 is replaced by a letter-case variant
of it. A verb is recognised, that is, not answered with `ProtocolNotSupport`, exactly
when `strings.ToUpper` maps it to PING, SET, GET, INFO, JOIN or REMOVE; every
letter-case variant of these six is such a verb. -/
theorem C19_verb_case (intSize : Nat) (net : Net) (c : Cache) :
    (∀ (v v' : String) (rest : List String), caseVariant v v' →
      Cache.HandleCommand intSize net c ⟨v :: rest⟩
        = Cache.HandleCommand intSize net c ⟨v' :: rest⟩) ∧
    (∀ (v : String) (rest : List String),
      Cache.HandleCommand intSize net c ⟨v :: rest⟩ = some (Status.ProtocolNotSupport, "", c)
        ↔ ToUpper v ∉ verbs) ∧
    (∀ (v : String) (rest : List String) (r : String) (c' : Cache),
      Cache.HandleCommand intSize net c ⟨v :: rest⟩ = some (Status.ProtocolNotSupport, r, c') →
      ToUpper v ∉ verbs) ∧
    (∀ v w : String, w ∈ verbs → caseVariant v w → ToUpper v = w) := by
  refine ⟨?_, ?_, ?_, ?_⟩
  · intro v v' rest h
    exact Cache.HandleCommand_congr_verb intSize net c v v' rest (ToUpper_of_caseVariant v v' h)
  · intro v rest
    constructor
    · intro hres hmem
      exact Cache.HandleCommand_recognised intSize net c (v :: rest) v (by simp) hmem _ _ _ hres rfl
    · intro hnot
      exact Cache.HandleCommand_other intSize net c (v :: rest) v (by simp) hnot
  · intro v rest r c' hres hmem
    exact Cache.HandleCommand_recognised intSize net c (v :: rest) v (by simp) hmem _ _ _ hres rfl
  · intro v w hw hvw
    rw [ToUpper_of_caseVariant v w hvw]
    simp only [verbs, List.mem_cons, List.mem_singleton, List.not_mem_nil, or_false] at hw
    rcases hw with h | h | h | h | h | h <;> (subst h; decide)

/-- Witness of C19, amended: `sEt foo bar` is handled as `SET foo bar`, and `Get`
upper-cases to a verb. -/
theorem C19_witness :
    Cache.HandleCommand 64 netDown sampleSingle ⟨["sEt", "foo", "bar"]⟩
      = Cache.HandleCommand 64 netDown sampleSingle ⟨["SET", "foo", "bar"]⟩ ∧
    ToUpper "Get" = "GET" :=
  ⟨(C19_verb_case 64 netDown sampleSingle).1 "sEt" "SET" ["foo", "bar"] (by decide),
   (C19_verb_case 64 netDown sampleSingle).2.2.2 "Get" "GET" (by decide) (by decide)⟩

/-! ## Independence of keys -/

/-- C20. Operations on distinct keys are independent: on a cache with at least one
shard (and an `int` wider than 32 bits), for two distinct keys `K` and `K'` owned by
the local address, in the same shard or not, and every value `V`,
`HandleSet(["SET", K, V])` returns and `HandleGet(["GET", K'])` returns the same
status and reply before and after it; and whatever `HandleSet`, `HandleGet` and
`HandlePing` are given, they leave the membership table as it was. -/
theorem C20_distinct_keys_independent (intSize : Nat) (c : Cache) (K K' V : String)
    (hown : c.consistency.SetKey K = c.Config.Address)
    (hown' : c.consistency.SetKey K' = c.Config.Address)
    (hne : K ≠ K') (hs : 0 < c.shards.length) (hi : 32 < intSize) :
    (∃ c' : Cache,
      c.HandleSet intSize ["SET", K, V] = some (Status.RequestFinish, "+OK\r\n", c') ∧
      (c.HandleGet intSize ["GET", K']).isSome = true ∧
      (c'.HandleGet intSize ["GET", K']).map (fun o => (o.1, o.2.1))
        = (c.HandleGet intSize ["GET", K']).map (fun o => (o.1, o.2.1))) ∧
    (∀ (args : List String) (st : Status) (r : String) (c' : Cache),
      (c.HandleSet intSize args = some (st, r, c') ∨
        c.HandleGet intSize args = some (st, r, c') ∨
        c.HandlePing args = some (st, r, c')) →
      c'.RouteTable = c.RouteTable) := by
  refine ⟨?_, ?_⟩
  · obtain ⟨shard, hshard, hset⟩ :=
      Cache.HandleSet_local intSize c ["SET", K, V] K V rfl rfl hown hs hi
    obtain ⟨shard0, hshard0, hget0⟩ :=
      Cache.HandleGet_local intSize c ["GET", K'] K' rfl hown' hs hi
    obtain ⟨shard1, hshard1, hget1⟩ :=
      Cache.HandleGet_local intSize
        { c with shards := c.shards.set (c.consistency.HashKey K % c.shards.length)
                   (shard.set K V) } ["GET", K'] K' rfl hown' (by simpa using hs) hi
    have hlt : c.consistency.HashKey K % c.shards.length < c.shards.length := Nat.mod_lt _ hs
    refine ⟨_, hset, ?_, ?_⟩
    · rw [hget0]
      cases shard0.get? K' <;> rfl
    · have hsame : shard1.get? K' = shard0.get? K' := by
        simp only [List.length_set] at hshard1
        by_cases hidx : c.consistency.HashKey K % c.shards.length
            = c.consistency.HashKey K' % c.shards.length
        · rw [← hidx] at hshard1 hshard0
          rw [List.getElem?_set_self hlt] at hshard1
          rw [hshard] at hshard0
          cases hshard1
          cases hshard0
          rw [GoMap.get?_set, if_neg (Ne.symm hne)]
        · rw [List.getElem?_set_ne hidx, hshard0] at hshard1
          cases hshard1
          rfl
      rw [hget1, hget0, hsame]
      cases shard0.get? K' <;> rfl
  · intro args st r c' h
    rcases h with h | h | h
    · exact (Cache.HandleSet_frame intSize c args st r c' h).2.2
    · rw [Cache.HandleGet_frame intSize c args st r c' h]
    · simp only [Cache.HandlePing, Option.some.injEq, Prod.mk.injEq] at h
      rw [← h.2.2]

/-- Witness of C20: on the single-node cache `SET foo bar` does not change the answer
to `GET qux`, a key of the same shard. -/
theorem C20_witness :
    ∃ c' : Cache,
      sampleSingle.HandleSet 64 ["SET", "foo", "bar"]
        = some (Status.RequestFinish, "+OK\r\n", c') ∧
      (sampleSingle.HandleGet 64 ["GET", "qux"]).isSome = true ∧
      (c'.HandleGet 64 ["GET", "qux"]).map (fun o => (o.1, o.2.1))
        = (sampleSingle.HandleGet 64 ["GET", "qux"]).map (fun o => (o.1, o.2.1)) :=
  (C20_distinct_keys_independent 64 sampleSingle "foo" "qux" "bar" (by decide) (by decide)
    (by decide) (by decide) (by decide)).1

end Grape
